import Mathlib

/-!
Shallow embedding of the OrbitarMechs N-body engine
(`src/Physics.ts`, `src/BarnesHut.ts`) over real arithmetic.

Conventions used throughout:
* JS numbers are modelled by `ℝ`; `Math.sqrt` is `Real.sqrt`.
* `THREE.Vector3` is `Vec3`; its `normalize` keeps the library guard
  `divideScalar(this.length() || 1)`, so the zero vector normalizes to itself.
* `Math.random()` draws are supplied by explicit oracle parameters
  (a `Vec3` of three draws per force call, keyed by body ids at the
  engine level); every theorem quantifies over the oracle.
* JS reference equality (`===`) on bodies is modelled by a numeric `id`
  field; distinct registry entries carry distinct ids.
* `BarnesHutTree.insert` recurses without any structural bound, so it is
  embedded with an explicit fuel parameter and returns `none` when the
  fuel is exhausted; `some` results are exactly the terminating runs.
-/

namespace Orbitar

noncomputable section

/-- Three-component real vector, modelling `THREE.Vector3`. -/
@[ext]
structure Vec3 where
  x : ℝ
  y : ℝ
  z : ℝ

namespace Vec3

/-- The zero vector, `new THREE.Vector3(0, 0, 0)`. -/
def zero : Vec3 := ⟨0, 0, 0⟩

/-- `Vector3.add`. -/
def add (a b : Vec3) : Vec3 := ⟨a.x + b.x, a.y + b.y, a.z + b.z⟩

/-- `Vector3.subVectors` / `Vector3.sub`: `a - b`. -/
def sub (a b : Vec3) : Vec3 := ⟨a.x - b.x, a.y - b.y, a.z - b.z⟩

/-- `Vector3.multiplyScalar`. -/
def smul (v : Vec3) (c : ℝ) : Vec3 := ⟨v.x * c, v.y * c, v.z * c⟩

/-- `Vector3.lengthSq`. -/
def lengthSq (v : Vec3) : ℝ := v.x * v.x + v.y * v.y + v.z * v.z

/-- `Vector3.length`. -/
noncomputable def length (v : Vec3) : ℝ := Real.sqrt v.lengthSq

/-- `Vector3.normalize`, including the THREE.js guard
`divideScalar(this.length() || 1)`: a zero-length vector is divided by 1,
hence returned unchanged (no NaN is produced). `divideScalar(s)` is
`multiplyScalar(1/s)`. -/
noncomputable def normalize (v : Vec3) : Vec3 :=
  v.smul (1 / (if v.length = 0 then 1 else v.length))

/-- `a.distanceTo(b)`. -/
noncomputable def distanceTo (a b : Vec3) : ℝ := (sub a b).length

instance : Zero Vec3 := ⟨zero⟩

instance : Add Vec3 := ⟨add⟩

instance : AddCommMonoid Vec3 where
  add_assoc a b c := by
    show add (add a b) c = add a (add b c)
    ext <;> simp [add, add_assoc]
  zero_add a := by
    show add zero a = a
    ext <;> simp [add, zero]
  add_zero a := by
    show add a zero = a
    ext <;> simp [add, zero]
  add_comm a b := by
    show add a b = add b a
    ext <;> simp [add, add_comm]
  nsmul := nsmulRec

end Vec3

/-- A celestial body as seen by the physics engine: the kinematic state
(`mass`, `position`, `velocity`, `isStatic`) of `CelestialBody`, plus an
`id` modelling JS object identity (`===`). -/
structure Body where
  id : ℕ
  mass : ℝ
  position : Vec3
  velocity : Vec3
  isStatic : Bool

instance : Inhabited Body := ⟨⟨0, 0, Vec3.zero, Vec3.zero, false⟩⟩

namespace PhysicsEngine

/-- `PhysicsEngine.calculateGravityForce(body1, body2)`.
`rnd` packages the three `Math.random()` draws the call would make in its
coincident branch; each component of `rnd` lies in `[0, 1)`. -/
noncomputable def calculateGravityForce (G : ℝ) (rnd : Vec3) (body1 body2 : Body) : Vec3 :=
  let direction := Vec3.sub body2.position body1.position
  let distanceSquared := direction.lengthSq
  let minDistance : ℝ := 0.1
  let clampedDistanceSquared := max distanceSquared (minDistance * minDistance)
  if distanceSquared < 0.001 then
    let randomDirection : Vec3 := ⟨(rnd.x - 0.5) * 0.1, (rnd.y - 0.5) * 0.1, (rnd.z - 0.5) * 0.1⟩
    let forceMagnitude := G * (body1.mass * body2.mass) / clampedDistanceSquared
    randomDirection.normalize.smul forceMagnitude
  else
    let forceMagnitude := G * (body1.mass * body2.mass) / clampedDistanceSquared
    direction.normalize.smul forceMagnitude

/-- `PhysicsEngine.calculateTotalForce(body)`: direct pairwise summation
over the registry, skipping the body itself (`otherBody === body`).
`rnd` is the random oracle, keyed by the other body's id. -/
noncomputable def calculateTotalForce (G : ℝ) (rnd : ℕ → Vec3) (bodies : List Body)
    (body : Body) : Vec3 :=
  bodies.foldl
    (fun acc other =>
      if other.id = body.id then acc
      else acc.add (calculateGravityForce G (rnd other.id) body other))
    Vec3.zero

/-- One iteration of the velocity pass of `PhysicsEngine.update`:
`velocity += (force / mass) * dt` for non-static bodies
(`divideScalar(m)` is `multiplyScalar(1/m)`). -/
def velocityStep (dt : ℝ) (bf : Body × Vec3) : Body :=
  if bf.1.isStatic then bf.1
  else { bf.1 with velocity := bf.1.velocity.add ((bf.2.smul (1 / bf.1.mass)).smul dt) }

/-- One iteration of the position pass of `PhysicsEngine.update`:
`position += velocity * dt` for non-static bodies, reading the velocity
already updated by the velocity pass. -/
def positionStep (dt : ℝ) (b : Body) : Body :=
  if b.isStatic then b
  else { b with position := b.position.add (b.velocity.smul dt) }

end PhysicsEngine

/-- Axis-aligned bounding box, the `bounds` record of `BHNode`. -/
structure Bounds where
  min : Vec3
  max : Vec3

namespace Bounds

/-- `BHNode.getCenter()`. -/
def getCenter (b : Bounds) : Vec3 :=
  ⟨(b.min.x + b.max.x) / 2, (b.min.y + b.max.y) / 2, (b.min.z + b.max.z) / 2⟩

/-- `BHNode.getSize()`: the largest edge of the box. -/
def getSize (b : Bounds) : ℝ :=
  Max.max (Max.max (b.max.x - b.min.x) (b.max.y - b.min.y)) (b.max.z - b.min.z)

/-- `BHNode.contains(position)`. -/
def contains (b : Bounds) (p : Vec3) : Prop :=
  b.min.x ≤ p.x ∧ p.x ≤ b.max.x ∧
  b.min.y ≤ p.y ∧ p.y ≤ b.max.y ∧
  b.min.z ≤ p.z ∧ p.z ≤ b.max.z

instance (b : Bounds) (p : Vec3) : Decidable (contains b p) := by
  unfold contains; infer_instance

/-- `BHNode.getOctant(position)`: 3-bit octant code, one bit per axis,
set when the coordinate is `≥` the node center on that axis. -/
def getOctant (b : Bounds) (p : Vec3) : ℕ :=
  let center := getCenter b
  (if center.x ≤ p.x then 1 else 0) +
  (if center.y ≤ p.y then 2 else 0) +
  (if center.z ≤ p.z then 4 else 0)

/-- The bounding box of `BHNode.createChild(octant)`. The source tests
`octant & 1`, `octant & 2`, `octant & 4`; for a 3-bit code these are the
bits `octant % 2`, `octant / 2 % 2`, `octant / 4 % 2`. -/
def childBounds (b : Bounds) (octant : ℕ) : Bounds :=
  let center := getCenter b
  { min := ⟨if octant % 2 = 1 then center.x else b.min.x,
            if octant / 2 % 2 = 1 then center.y else b.min.y,
            if octant / 4 % 2 = 1 then center.z else b.min.z⟩,
    max := ⟨if octant % 2 = 1 then b.max.x else center.x,
            if octant / 2 % 2 = 1 then b.max.y else center.y,
            if octant / 4 % 2 = 1 then b.max.z else center.z⟩ }

end Bounds

/-- A Barnes-Hut octree node (`BHNode`), with one constructor per JS shape:
`null` models an absent child slot, `node` a live `BHNode` object with its
eight child slots spelled out. -/
inductive BHTree : Type where
  | null : BHTree
  | node (centerOfMass : Vec3) (totalMass : ℝ) (body : Option Body)
      (c0 c1 c2 c3 c4 c5 c6 c7 : BHTree) (bounds : Bounds) (isEmpty : Bool) : BHTree

namespace BHTree

/-- `new BHNode(bounds)`: empty node, all children `null`. -/
def mkEmpty (bd : Bounds) : BHTree :=
  .node Vec3.zero 0 none .null .null .null .null .null .null .null .null bd true

/-- `node.children[i]` (with `null` both for absent slots and for reads of
out-of-range indices, which the source never performs). -/
def getChild : BHTree → ℕ → BHTree
  | .null, _ => .null
  | .node _ _ _ c0 c1 c2 c3 c4 c5 c6 c7 _ _, i =>
    match i with
    | 0 => c0
    | 1 => c1
    | 2 => c2
    | 3 => c3
    | 4 => c4
    | 5 => c5
    | 6 => c6
    | 7 => c7
    | _ => .null

/-- `node.children[i] = c`. -/
def setChild : BHTree → ℕ → BHTree → BHTree
  | .null, _, _ => .null
  | .node com tm b c0 c1 c2 c3 c4 c5 c6 c7 bd e, i, c =>
    match i with
    | 0 => .node com tm b c c1 c2 c3 c4 c5 c6 c7 bd e
    | 1 => .node com tm b c0 c c2 c3 c4 c5 c6 c7 bd e
    | 2 => .node com tm b c0 c1 c c3 c4 c5 c6 c7 bd e
    | 3 => .node com tm b c0 c1 c2 c c4 c5 c6 c7 bd e
    | 4 => .node com tm b c0 c1 c2 c3 c c5 c6 c7 bd e
    | 5 => .node com tm b c0 c1 c2 c3 c4 c c6 c7 bd e
    | 6 => .node com tm b c0 c1 c2 c3 c4 c5 c c7 bd e
    | 7 => .node com tm b c0 c1 c2 c3 c4 c5 c6 c bd e
    | _ => .node com tm b c0 c1 c2 c3 c4 c5 c6 c7 bd e

/-- `node.createChild(octant)`: a fresh empty node with the octant's box. -/
def createChild (bd : Bounds) (octant : ℕ) : BHTree :=
  mkEmpty (Bounds.childBounds bd octant)

/-- `node.children[o]` after the lazy-creation guard
`if (!node.children[o]) node.children[o] = node.createChild(o)`. -/
def ensuredChild (t : BHTree) (bd : Bounds) (o : ℕ) : BHTree :=
  match getChild t o with
  | .null => createChild bd o
  | c => c

/-- `BarnesHutTree.insert(body, node)`, with explicit fuel: the source
recursion has no depth bound, so `none` marks a run that exceeds the given
fuel. Every terminating run of the source corresponds to a `some` result
for every sufficiently large fuel. -/
def insertF : ℕ → Body → BHTree → Option BHTree
  | 0, _, _ => none
  | _ + 1, _, .null => none
  | n + 1, body, .node com tm b c0 c1 c2 c3 c4 c5 c6 c7 bd e =>
    let t : BHTree := .node com tm b c0 c1 c2 c3 c4 c5 c6 c7 bd e
    if ¬ Bounds.contains bd body.position then some t
    else if e then
      some (.node body.position body.mass (some body) c0 c1 c2 c3 c4 c5 c6 c7 bd false)
    else
      match b with
      | some existingBody =>
        let eo := Bounds.getOctant bd existingBody.position
        match insertF n existingBody (ensuredChild t bd eo) with
        | none => none
        | some ce =>
          let t1 := setChild (.node com tm none c0 c1 c2 c3 c4 c5 c6 c7 bd e) eo ce
          let no := Bounds.getOctant bd body.position
          match insertF n body (ensuredChild t1 bd no) with
          | none => none
          | some cn => some (setChild t1 no cn)
      | none =>
        let o := Bounds.getOctant bd body.position
        match insertF n body (ensuredChild t bd o) with
        | none => none
        | some c => some (setChild t o c)

/-- Mass contribution of a child slot in `updateCenterOfMass`: `null` and
empty children are skipped. -/
def contribMass : BHTree → ℝ
  | .null => 0
  | .node _ tm _ _ _ _ _ _ _ _ _ _ e => if e then 0 else tm

/-- `centerOfMass * totalMass` contribution of a child slot in
`updateCenterOfMass`. -/
def contribWeighted : BHTree → Vec3
  | .null => Vec3.zero
  | .node com tm _ _ _ _ _ _ _ _ _ _ e => if e then Vec3.zero else com.smul tm

/-- `BarnesHutTree.updateCenterOfMass(node)`: post-order aggregate pass.
Recursing uniformly into every child slot is equal to the source's guarded
recursion, since the pass is the identity on `null` and empty nodes. -/
def updateCOM : BHTree → BHTree
  | .null => .null
  | .node com tm b c0 c1 c2 c3 c4 c5 c6 c7 bd e =>
    if e then .node com tm b c0 c1 c2 c3 c4 c5 c6 c7 bd e
    else
      match b with
      | some x => .node x.position x.mass (some x) c0 c1 c2 c3 c4 c5 c6 c7 bd e
      | none =>
        let d0 := updateCOM c0
        let d1 := updateCOM c1
        let d2 := updateCOM c2
        let d3 := updateCOM c3
        let d4 := updateCOM c4
        let d5 := updateCOM c5
        let d6 := updateCOM c6
        let d7 := updateCOM c7
        let totalMass := contribMass d0 + contribMass d1 + contribMass d2 + contribMass d3 +
          contribMass d4 + contribMass d5 + contribMass d6 + contribMass d7
        let weightedSum := contribWeighted d0 + contribWeighted d1 + contribWeighted d2 +
          contribWeighted d3 + contribWeighted d4 + contribWeighted d5 + contribWeighted d6 +
          contribWeighted d7
        if 0 < totalMass then
          .node (weightedSum.smul (1 / totalMass)) totalMass none d0 d1 d2 d3 d4 d5 d6 d7 bd e
        else .node com tm none d0 d1 d2 d3 d4 d5 d6 d7 bd e

/-- `node.body === body` for an `Option`-valued slot, via ids. -/
def sameBody (b : Option Body) (body : Body) : Prop :=
  match b with
  | some x => x.id = body.id
  | none => False

instance (b : Option Body) (body : Body) : Decidable (sameBody b body) := by
  unfold sameBody; cases b <;> infer_instance

/-- `BarnesHutTree.calculateForceRecursive(body, node, G, force)`:
returns the accumulator extended by the subtree's contribution. Recursing
uniformly into the eight child slots matches the source's
`if (child && !child.isEmpty)` guard because the function returns the
accumulator unchanged on `null` and empty nodes. -/
def calcForceRec (G theta : ℝ) (body : Body) : BHTree → Vec3 → Vec3
  | .null, force => force
  | .node com tm b c0 c1 c2 c3 c4 c5 c6 c7 bd e, force =>
    if e then force
    else if sameBody b body then force
    else
      let direction := Vec3.sub com body.position
      let distance := direction.length
      if distance < 0.001 then force
      else
        let s := Bounds.getSize bd
        let ratio := s / distance
        if ratio < theta ∨ b.isSome then
          let distanceSquared := distance * distance
          let minDistance : ℝ := 0.1
          let clampedDistanceSquared := max distanceSquared (minDistance * minDistance)
          let forceMagnitude := G * body.mass * tm / clampedDistanceSquared
          force.add (direction.normalize.smul forceMagnitude)
        else
          let f0 := calcForceRec G theta body c0 force
          let f1 := calcForceRec G theta body c1 f0
          let f2 := calcForceRec G theta body c2 f1
          let f3 := calcForceRec G theta body c3 f2
          let f4 := calcForceRec G theta body c4 f3
          let f5 := calcForceRec G theta body c5 f4
          let f6 := calcForceRec G theta body c6 f5
          calcForceRec G theta body c7 f6

/-- `BarnesHutTree.calculateForce(body, G)` on a tree with root `t` and
opening angle `theta`. -/
def calcForce (G theta : ℝ) (body : Body) (t : BHTree) : Vec3 :=
  calcForceRec G theta body t Vec3.zero

/-- `BarnesHutTree.calculateBounds(bodies, padding)`. The source starts its
min/max folds at `±Infinity`; for a nonempty list this equals folding from
the first element. -/
def calculateBounds (bodies : List Body) (padding : ℝ) : Bounds :=
  match bodies with
  | [] => ⟨⟨-100, -100, -100⟩, ⟨100, 100, 100⟩⟩
  | b :: rest =>
    let minX := rest.foldl (fun a c => min a c.position.x) b.position.x
    let minY := rest.foldl (fun a c => min a c.position.y) b.position.y
    let minZ := rest.foldl (fun a c => min a c.position.z) b.position.z
    let maxX := rest.foldl (fun a c => max a c.position.x) b.position.x
    let maxY := rest.foldl (fun a c => max a c.position.y) b.position.y
    let maxZ := rest.foldl (fun a c => max a c.position.z) b.position.z
    ⟨⟨minX - padding, minY - padding, minZ - padding⟩,
     ⟨maxX + padding, maxY + padding, maxZ + padding⟩⟩

/-- `BarnesHutTree.buildTree(bodies)` from the constructor: insert every
body into a fresh root, then run the aggregate pass. `none` when some
insertion exceeds the fuel. -/
def buildTree (fuel : ℕ) (bodies : List Body) (bd : Bounds) : Option BHTree :=
  match bodies.foldlM (fun t b => insertF fuel b t) (mkEmpty bd) with
  | none => none
  | some t => some (updateCOM t)

end BHTree

namespace PhysicsEngine

/-- The per-frame force map of `PhysicsEngine.update`: the Barnes-Hut tree
is built once (from `calculateBounds(bodies, 10)`) when
`useBarnesHut && bodies.length > 2`, otherwise forces come from the direct
evaluator. Forces are listed in registry order, modelling the
identity-keyed `Map`. `rnd` keys the random oracle by the ids of the two
bodies of a direct pair. -/
def frameForces (G : ℝ) (useBarnesHut : Bool) (theta : ℝ) (rnd : ℕ → ℕ → Vec3)
    (fuel : ℕ) (bodies : List Body) : Option (List Vec3) :=
  if useBarnesHut ∧ bodies.length > 2 then
    match BHTree.buildTree fuel bodies (BHTree.calculateBounds bodies 10) with
    | none => none
    | some tree => some (bodies.map (fun b => BHTree.calcForce G theta b tree))
  else
    some (bodies.map (fun b => calculateTotalForce G (rnd b.id) bodies b))

/-- `PhysicsEngine.update(deltaTime)`: compute all forces from the current
(pre-step) state, then run the velocity pass, then the position pass. -/
def update (G : ℝ) (useBarnesHut : Bool) (theta : ℝ) (rnd : ℕ → ℕ → Vec3)
    (fuel : ℕ) (dt : ℝ) (bodies : List Body) : Option (List Body) :=
  match frameForces G useBarnesHut theta rnd fuel bodies with
  | none => none
  | some forces =>
    some (((bodies.zip forces).map (velocityStep dt)).map (positionStep dt))

/-- A sequence of `update(dt)` calls, with a possibly different random
oracle at every step. -/
def iterUpdate (G : ℝ) (useBarnesHut : Bool) (theta : ℝ) (rnds : ℕ → ℕ → ℕ → Vec3)
    (fuel : ℕ) (dt : ℝ) : ℕ → List Body → Option (List Body)
  | 0, bodies => some bodies
  | n + 1, bodies =>
    match update G useBarnesHut theta (rnds n) fuel dt bodies with
    | none => none
    | some bodies1 => iterUpdate G useBarnesHut theta rnds fuel dt n bodies1

/-- `PhysicsEngine.getTotalEnergy()`: kinetic term folded over the
registry, potential term folded over the index pairs `i < j` exactly as
the source's nested loops visit them. -/
def getTotalEnergy (G : ℝ) (bodies : List Body) : ℝ :=
  let kineticEnergy := bodies.foldl (fun acc b => acc + 0.5 * b.mass * b.velocity.lengthSq) 0
  let n := bodies.length
  let potentialEnergy := (List.range n).foldl
    (fun acc i =>
      (List.range' (i + 1) (n - (i + 1))).foldl
        (fun acc2 j =>
          let body1 := bodies.getD i default
          let body2 := bodies.getD j default
          acc2 - G * body1.mass * body2.mass /
            Max.max (body1.position.distanceTo body2.position) 0.1)
        acc)
    0
  kineticEnergy + potentialEnergy

end PhysicsEngine

/-!  Specification-side definitions, written from the spec's words, used
to state refinement claims against the embedded source. -/

/-- Spec formula for the direct pairwise force outside the coincident
branch: `normalize(j.position - i.position) * G * m_i * m_j /
max(distSq, minDistance^2)` with `minDistance = 0.1` (§4.3). -/
def specPairForce (G : ℝ) (bi bj : Body) : Vec3 :=
  let direction := Vec3.sub bj.position bi.position
  direction.normalize.smul (G * bi.mass * bj.mass / Max.max direction.lengthSq (0.1 * 0.1))

/-- Spec formula for kinetic energy: `KE = Σ 0.5 * m_i * |v_i|^2` (§4.5). -/
def specKE (bodies : List Body) : ℝ :=
  ∑ i ∈ Finset.range bodies.length,
    0.5 * (bodies.getD i default).mass * (bodies.getD i default).velocity.lengthSq

/-- Spec formula for potential energy over unique unordered pairs:
`PE = -Σ over i < j of G * m_i * m_j / max(dist(i,j), 0.1)` (§4.5). -/
def specPE (G : ℝ) (bodies : List Body) : ℝ :=
  -∑ i ∈ Finset.range bodies.length, ∑ j ∈ Finset.Ico (i + 1) bodies.length,
    G * (bodies.getD i default).mass * (bodies.getD j default).mass /
      Max.max ((bodies.getD i default).position.distanceTo (bodies.getD j default).position) 0.1

/-!  Helper definitions about octrees, used to state the tree invariants. -/

namespace BHTree

/-- All bodies stored in body slots of a subtree, in slot order. -/
def subtreeBodies : BHTree → List Body
  | .null => []
  | .node _ _ b c0 c1 c2 c3 c4 c5 c6 c7 _ _ =>
    b.toList ++ subtreeBodies c0 ++ subtreeBodies c1 ++ subtreeBodies c2 ++ subtreeBodies c3 ++
      subtreeBodies c4 ++ subtreeBodies c5 ++ subtreeBodies c6 ++ subtreeBodies c7

/-- Total mass of the bodies stored in a subtree. -/
def subtreeMass (t : BHTree) : ℝ :=
  ((subtreeBodies t).map Body.mass).sum

/-- Mass-weighted sum of the positions of the bodies stored in a subtree. -/
def subtreeWeighted (t : BHTree) : Vec3 :=
  ((subtreeBodies t).map (fun b => b.position.smul b.mass)).sum

/-- Componentwise ordering of a bounding box. -/
def boxOrdered (bd : Bounds) : Prop :=
  bd.min.x ≤ bd.max.x ∧ bd.min.y ≤ bd.max.y ∧ bd.min.z ≤ bd.max.z

/-- The bounding box stored in a node (`null` carries a degenerate box;
the source never reads bounds of a null slot). -/
def bhBounds : BHTree → Bounds
  | .null => ⟨Vec3.zero, Vec3.zero⟩
  | .node _ _ _ _ _ _ _ _ _ _ _ bd _ => bd

/-- The `isEmpty` flag of a node (`null` counts as empty). -/
def bhIsEmpty : BHTree → Bool
  | .null => true
  | .node _ _ _ _ _ _ _ _ _ _ _ _ e => e

/-- The `body` slot of a node. -/
def bhBody : BHTree → Option Body
  | .null => none
  | .node _ _ b _ _ _ _ _ _ _ _ _ _ => b

/-- Structural well-formedness maintained by `insert` on every node of a
built tree: its box is ordered; an empty node is fresh (no body, no
children); a leaf has no children and its body lies inside its bounds; a
non-empty node holds at least one body, and an internal one at least two;
a non-null child slot holds exactly the matching octant box of the
parent. -/
def wf : BHTree → Prop
  | .null => True
  | .node _ _ b c0 c1 c2 c3 c4 c5 c6 c7 bd e =>
    boxOrdered bd ∧
    (e = true → b = none ∧ c0 = .null ∧ c1 = .null ∧ c2 = .null ∧ c3 = .null ∧
      c4 = .null ∧ c5 = .null ∧ c6 = .null ∧ c7 = .null) ∧
    (∀ x, b = some x → Bounds.contains bd x.position ∧ c0 = .null ∧ c1 = .null ∧
      c2 = .null ∧ c3 = .null ∧ c4 = .null ∧ c5 = .null ∧ c6 = .null ∧ c7 = .null) ∧
    (e = false →
      1 ≤ (subtreeBodies (.node Vec3.zero 0 b c0 c1 c2 c3 c4 c5 c6 c7 bd e)).length) ∧
    (e = false → b = none →
      2 ≤ (subtreeBodies (.node Vec3.zero 0 b c0 c1 c2 c3 c4 c5 c6 c7 bd e)).length) ∧
    (∀ i, getChild (.node Vec3.zero 0 b c0 c1 c2 c3 c4 c5 c6 c7 bd e) i ≠ .null →
      bhBounds (getChild (.node Vec3.zero 0 b c0 c1 c2 c3 c4 c5 c6 c7 bd e) i) =
        Bounds.childBounds bd i) ∧
    wf c0 ∧ wf c1 ∧ wf c2 ∧ wf c3 ∧ wf c4 ∧ wf c5 ∧ wf c6 ∧ wf c7

/-- Claim C4's bounds invariant: every stored body lies within the bounds
of the node holding it. -/
def boundsInv : BHTree → Prop
  | .null => True
  | .node _ _ b c0 c1 c2 c3 c4 c5 c6 c7 bd _ =>
    (∀ x, b = some x → Bounds.contains bd x.position) ∧
    boundsInv c0 ∧ boundsInv c1 ∧ boundsInv c2 ∧ boundsInv c3 ∧
    boundsInv c4 ∧ boundsInv c5 ∧ boundsInv c6 ∧ boundsInv c7

/-- Claim C4's aggregate invariant: a non-empty leaf's aggregate is its
body's mass and position; a non-empty internal node's `totalMass` is the
sum of its subtree's body masses and its `centerOfMass` the mass-weighted
average of their positions. -/
def aggInv : BHTree → Prop
  | .null => True
  | .node com tm b c0 c1 c2 c3 c4 c5 c6 c7 bd e =>
    (e = false → ∀ x, b = some x → tm = x.mass ∧ com = x.position) ∧
    (e = false → b = none →
      tm = subtreeMass (.node com tm b c0 c1 c2 c3 c4 c5 c6 c7 bd e) ∧
      com = (subtreeWeighted (.node com tm b c0 c1 c2 c3 c4 c5 c6 c7 bd e)).smul
        (1 / subtreeMass (.node com tm b c0 c1 c2 c3 c4 c5 c6 c7 bd e))) ∧
    aggInv c0 ∧ aggInv c1 ∧ aggInv c2 ∧ aggInv c3 ∧
    aggInv c4 ∧ aggInv c5 ∧ aggInv c6 ∧ aggInv c7

/-- The point-mass contribution the traversal adds when it accepts a
node: the direct force formula with the minimum-distance clamp, applied
to the node's center of mass and total mass. -/
noncomputable def pointForce (G : ℝ) (b : Body) (com : Vec3) (tm : ℝ) : Vec3 :=
  (Vec3.sub com b.position).normalize.smul
    (G * b.mass * tm /
      Max.max ((Vec3.sub com b.position).length * (Vec3.sub com b.position).length)
        (0.1 * 0.1))

/-- Sum of the point-mass contributions of all non-empty leaves of a
subtree other than the query body itself. -/
noncomputable def bhLeafSum (G : ℝ) (b : Body) : BHTree → Vec3
  | .null => 0
  | .node com tm bo c0 c1 c2 c3 c4 c5 c6 c7 _ e =>
    if e = true then 0
    else
      match bo with
      | some x => if x.id = b.id then 0 else pointForce G b com tm
      | none =>
        bhLeafSum G b c0 + bhLeafSum G b c1 + bhLeafSum G b c2 + bhLeafSum G b c3 +
          bhLeafSum G b c4 + bhLeafSum G b c5 + bhLeafSum G b c6 + bhLeafSum G b c7

/-- Every non-empty node other than the query body's own leaf keeps its
center of mass at distance at least `0.001` from the query position, so
the traversal's early-zero branch never fires. -/
def farFrom (b : Body) : BHTree → Prop
  | .null => True
  | .node com _ bo c0 c1 c2 c3 c4 c5 c6 c7 _ e =>
    (e = false → ¬ sameBody bo b → 0.001 ≤ (Vec3.sub com b.position).length) ∧
    farFrom b c0 ∧ farFrom b c1 ∧ farFrom b c2 ∧ farFrom b c3 ∧
    farFrom b c4 ∧ farFrom b c5 ∧ farFrom b c6 ∧ farFrom b c7

/-- Sum of direct point-mass forces of a list of source bodies on `b`,
skipping entries with the query's id. -/
noncomputable def listPointForceSum (G : ℝ) (b : Body) (l : List Body) : Vec3 :=
  ((l.filter (fun x => decide (¬ x.id = b.id))).map
    (fun x => pointForce G b x.position x.mass)).sum

end BHTree

/-- Validity of a triple of `Math.random()` draws: each component lies in
the half-open unit interval. -/
def unitDraws (r : Vec3) : Prop :=
  0 ≤ r.x ∧ r.x < 1 ∧ 0 ≤ r.y ∧ r.y < 1 ∧ 0 ≤ r.z ∧ r.z < 1

/-- Spec-side per-body effect of one symplectic Euler step (§4.4): static
bodies are untouched; otherwise the velocity is advanced by the pre-step
force and the position by the already-updated velocity. -/
def symplecticStep (dt : ℝ) (b : Body) (F : Vec3) : Body :=
  if b.isStatic then b
  else
    let v1 := b.velocity.add ((F.smul (1 / b.mass)).smul dt)
    { b with velocity := v1, position := b.position.add (v1.smul dt) }

theorem Vec3.zero_def : (0 : Vec3) = ⟨0, 0, 0⟩ := rfl

theorem Vec3.add_def (a b : Vec3) : a + b = ⟨a.x + b.x, a.y + b.y, a.z + b.z⟩ := rfl

theorem Vec3.add_eq (a b : Vec3) : a.add b = a + b := rfl

theorem Vec3.lengthSq_nonneg (v : Vec3) : 0 ≤ v.lengthSq := by
  have hx : 0 ≤ v.x * v.x := mul_self_nonneg _
  have hy : 0 ≤ v.y * v.y := mul_self_nonneg _
  have hz : 0 ≤ v.z * v.z := mul_self_nonneg _
  unfold Vec3.lengthSq; linarith

theorem Vec3.length_nonneg (v : Vec3) : 0 ≤ v.length := Real.sqrt_nonneg _

theorem vec3_length_sq_self (v : Vec3) (h : 0 ≤ v.lengthSq) :
    v.length * v.length = v.lengthSq := Real.mul_self_sqrt h

theorem vec3_smul_length (v : Vec3) (c : ℝ) :
    (v.smul c).lengthSq = v.lengthSq * (c * c) := by
  simp only [Vec3.smul, Vec3.lengthSq]; ring

/-- Norm of a normalized vector is at most one (it is one for nonzero
vectors and zero for the zero vector, thanks to the THREE.js guard). -/
theorem vec3_normalize_length_le_one (v : Vec3) : v.normalize.length ≤ 1 := by
  unfold Vec3.normalize
  by_cases h : v.length = 0
  · rw [if_pos h]
    have hsq : (v.smul (1 / 1)).lengthSq = v.lengthSq := by
      rw [vec3_smul_length]; norm_num
    show Real.sqrt (v.smul (1 / 1)).lengthSq ≤ 1
    rw [hsq, show Real.sqrt v.lengthSq = v.length from rfl, h]; norm_num
  · rw [if_neg h]
    have hpos : 0 < v.length := lt_of_le_of_ne (Vec3.length_nonneg v) (Ne.symm h)
    show Real.sqrt (v.smul (1 / v.length)).lengthSq ≤ 1
    rw [vec3_smul_length]
    have hls : v.lengthSq * (1 / v.length * (1 / v.length)) = 1 := by
      have hm : v.length * v.length = v.lengthSq := vec3_length_sq_self v (Vec3.lengthSq_nonneg v)
      field_simp
      linarith [hm]
    rw [hls, Real.sqrt_one]

theorem sqrt_hundred : Real.sqrt (100 : ℝ) = 10 := by
  rw [show (100 : ℝ) = 10 ^ 2 by norm_num]
  exact Real.sqrt_sq (by norm_num)

/-- C5: the direct pairwise force is
`normalize(j.position - i.position) * G * m_i * m_j / max(distSq, 0.1^2)`;
below unclamped `distSq < 0.001` the direction is replaced by a normalized
pseudo-random vector with components in `[-0.05, 0.05]`, scaled by the same
clamped magnitude; and masses 10 and 5 at distance 10 with `G = 1` give
force magnitude `0.5`. -/
theorem direct_pair_force_formula (G : ℝ) (r : Vec3) (b1 b2 : Body) (hr : unitDraws r) :
    ((¬ (Vec3.sub b2.position b1.position).lengthSq < 0.001 →
        PhysicsEngine.calculateGravityForce G r b1 b2 = specPairForce G b1 b2) ∧
      ((Vec3.sub b2.position b1.position).lengthSq < 0.001 →
        ∃ j : Vec3, |j.x| ≤ 0.05 ∧ |j.y| ≤ 0.05 ∧ |j.z| ≤ 0.05 ∧
          PhysicsEngine.calculateGravityForce G r b1 b2 =
            j.normalize.smul (G * b1.mass * b2.mass /
              Max.max (Vec3.sub b2.position b1.position).lengthSq (0.1 * 0.1)))) ∧
    (PhysicsEngine.calculateGravityForce 1 r ⟨0, 10, ⟨0, 0, 0⟩, Vec3.zero, false⟩
        ⟨1, 5, ⟨10, 0, 0⟩, Vec3.zero, false⟩).length = 0.5 := by
  obtain ⟨hx0, hx1, hy0, hy1, hz0, hz1⟩ := hr
  refine ⟨⟨?_, ?_⟩, ?_⟩
  · intro hfar
    simp only [PhysicsEngine.calculateGravityForce, specPairForce]
    rw [if_neg hfar]
    congr 1
    ring
  · intro hnear
    refine ⟨⟨(r.x - 0.5) * 0.1, (r.y - 0.5) * 0.1, (r.z - 0.5) * 0.1⟩, ?_, ?_, ?_, ?_⟩
    · rw [abs_le]; constructor <;> linarith
    · rw [abs_le]; constructor <;> linarith
    · rw [abs_le]; constructor <;> linarith
    · simp only [PhysicsEngine.calculateGravityForce]
      rw [if_pos hnear]
      congr 1
      ring
  · have hsub : Vec3.sub (⟨10, 0, 0⟩ : Vec3) (⟨0, 0, 0⟩ : Vec3) = ⟨10, 0, 0⟩ := by
      simp [Vec3.sub]
    have hlsq : (Vec3.mk 10 0 0).lengthSq = 100 := by norm_num [Vec3.lengthSq]
    have hlen : (Vec3.mk 10 0 0).length = 10 := by
      unfold Vec3.length; rw [hlsq]; exact sqrt_hundred
    have hnorm : (Vec3.mk 10 0 0).normalize = ⟨1, 0, 0⟩ := by
      unfold Vec3.normalize
      rw [if_neg (by rw [hlen]; norm_num), hlen]
      simp [Vec3.smul]
    simp only [PhysicsEngine.calculateGravityForce]
    rw [hsub]
    rw [if_neg (by rw [hlsq]; norm_num)]
    rw [hnorm, hlsq]
    have hmag : (1 : ℝ) * (10 * 5) / Max.max 100 (0.1 * 0.1) = 0.5 := by
      rw [max_eq_left (by norm_num : (0.1 * 0.1 : ℝ) ≤ 100)]
      norm_num
    rw [hmag]
    have hfin : (Vec3.mk 1 0 0).smul 0.5 = ⟨0.5, 0, 0⟩ := by simp [Vec3.smul]
    rw [hfin]
    unfold Vec3.length
    rw [show (Vec3.mk 0.5 0 0).lengthSq = (0.5 : ℝ) ^ 2 by norm_num [Vec3.lengthSq]]
    exact Real.sqrt_sq (by norm_num)

/-- Witness for C5 at `G = 1`, draws `(0, 0, 0)` and the two sample
bodies. -/
theorem direct_pair_force_formula_witness :
    unitDraws ⟨0, 0, 0⟩ ∧
    (((¬ (Vec3.sub (Body.mk 1 5 ⟨10, 0, 0⟩ Vec3.zero false).position
            (Body.mk 0 10 ⟨0, 0, 0⟩ Vec3.zero false).position).lengthSq < 0.001 →
        PhysicsEngine.calculateGravityForce 1 ⟨0, 0, 0⟩
            (Body.mk 0 10 ⟨0, 0, 0⟩ Vec3.zero false)
            (Body.mk 1 5 ⟨10, 0, 0⟩ Vec3.zero false) =
          specPairForce 1 (Body.mk 0 10 ⟨0, 0, 0⟩ Vec3.zero false)
            (Body.mk 1 5 ⟨10, 0, 0⟩ Vec3.zero false)) ∧
      ((Vec3.sub (Body.mk 1 5 ⟨10, 0, 0⟩ Vec3.zero false).position
            (Body.mk 0 10 ⟨0, 0, 0⟩ Vec3.zero false).position).lengthSq < 0.001 →
        ∃ j : Vec3, |j.x| ≤ 0.05 ∧ |j.y| ≤ 0.05 ∧ |j.z| ≤ 0.05 ∧
          PhysicsEngine.calculateGravityForce 1 ⟨0, 0, 0⟩
              (Body.mk 0 10 ⟨0, 0, 0⟩ Vec3.zero false)
              (Body.mk 1 5 ⟨10, 0, 0⟩ Vec3.zero false) =
            j.normalize.smul (1 * (Body.mk 0 10 ⟨0, 0, 0⟩ Vec3.zero false).mass *
              (Body.mk 1 5 ⟨10, 0, 0⟩ Vec3.zero false).mass /
              Max.max (Vec3.sub (Body.mk 1 5 ⟨10, 0, 0⟩ Vec3.zero false).position
                (Body.mk 0 10 ⟨0, 0, 0⟩ Vec3.zero false).position).lengthSq (0.1 * 0.1)))) ∧
      (PhysicsEngine.calculateGravityForce 1 ⟨0, 0, 0⟩ ⟨0, 10, ⟨0, 0, 0⟩, Vec3.zero, false⟩
          ⟨1, 5, ⟨10, 0, 0⟩, Vec3.zero, false⟩).length = 0.5) :=
  ⟨by unfold unitDraws; norm_num,
    direct_pair_force_formula 1 ⟨0, 0, 0⟩ (Body.mk 0 10 ⟨0, 0, 0⟩ Vec3.zero false)
      (Body.mk 1 5 ⟨10, 0, 0⟩ Vec3.zero false) (by unfold unitDraws; norm_num)⟩

theorem foldl_add_eq {α : Type} (f : α → ℝ) :
    ∀ (l : List α) (a : ℝ), List.foldl (fun acc x => acc + f x) a l = a + (l.map f).sum
  | [], a => by simp
  | x :: l, a => by
    simp only [List.foldl_cons, List.map_cons, List.sum_cons, foldl_add_eq f l (a + f x)]
    ring

theorem foldl_sub_eq {α : Type} (f : α → ℝ) :
    ∀ (l : List α) (a : ℝ), List.foldl (fun acc x => acc - f x) a l = a - (l.map f).sum
  | [], a => by simp
  | x :: l, a => by
    simp only [List.foldl_cons, List.map_cons, List.sum_cons, foldl_sub_eq f l (a - f x)]
    ring

theorem map_sum_getD (g : Body → ℝ) :
    ∀ l : List Body, (l.map g).sum = ∑ i ∈ Finset.range l.length, g (l.getD i default)
  | [] => by simp
  | b :: l => by
    simp only [List.map_cons, List.sum_cons, List.length_cons]
    rw [Finset.sum_range_succ']
    simp only [List.getD_cons_succ, List.getD_cons_zero]
    rw [map_sum_getD g l]
    ring

theorem range_map_sum (f : ℕ → ℝ) :
    ∀ n : ℕ, ((List.range n).map f).sum = ∑ i ∈ Finset.range n, f i
  | 0 => by simp
  | n + 1 => by
    rw [List.range_succ, Finset.sum_range_succ]
    simp only [List.map_append, List.sum_append, List.map_cons, List.sum_cons, List.map_nil,
      List.sum_nil]
    rw [range_map_sum f n]
    ring

theorem range'_map_sum (f : ℕ → ℝ) :
    ∀ (m s : ℕ), ((List.range' s m).map f).sum = ∑ i ∈ Finset.Ico s (s + m), f i
  | 0, s => by simp
  | m + 1, s => by
    rw [List.range'_succ]
    simp only [List.map_cons, List.sum_cons]
    rw [range'_map_sum f m (s + 1)]
    rw [show s + 1 + m = s + (m + 1) from by omega]
    rw [Finset.sum_eq_sum_Ico_succ_bot (by omega : s < s + (m + 1))]

/-- C9: `getTotalEnergy` returns `KE + PE` with
`KE = Σ 0.5 * m_i * |v_i|^2` over all bodies and
`PE = -Σ over pairs i < j of G * m_i * m_j / max(dist(i,j), 0.1)`. -/
theorem total_energy_formula (G : ℝ) (bodies : List Body) :
    PhysicsEngine.getTotalEnergy G bodies = specKE bodies + specPE G bodies := by
  simp only [PhysicsEngine.getTotalEnergy]
  congr 1
  · rw [foldl_add_eq, map_sum_getD]
    simp [specKE]
  · have hstep : (fun (acc : ℝ) (i : ℕ) =>
        (List.range' (i + 1) (bodies.length - (i + 1))).foldl
          (fun acc2 j =>
            acc2 - G * (bodies.getD i default).mass * (bodies.getD j default).mass /
              Max.max ((bodies.getD i default).position.distanceTo
                (bodies.getD j default).position) 0.1)
          acc) =
        fun (acc : ℝ) (i : ℕ) =>
          acc - ((List.range' (i + 1) (bodies.length - (i + 1))).map
            (fun j => G * (bodies.getD i default).mass * (bodies.getD j default).mass /
              Max.max ((bodies.getD i default).position.distanceTo
                (bodies.getD j default).position) 0.1)).sum := by
      funext acc i
      rw [foldl_sub_eq]
    rw [hstep, foldl_sub_eq, range_map_sum]
    simp only [specPE]
    rw [zero_sub, neg_inj]
    apply Finset.sum_congr rfl
    intro i hi
    have hin : i < bodies.length := Finset.mem_range.mp hi
    rw [range'_map_sum]
    rw [show i + 1 + (bodies.length - (i + 1)) = bodies.length from by omega]

theorem vec3_length_smul (v : Vec3) (c : ℝ) : (v.smul c).length = v.length * |c| := by
  unfold Vec3.length
  rw [vec3_smul_length, Real.sqrt_mul (Vec3.lengthSq_nonneg v),
    show c * c = c ^ 2 by ring, Real.sqrt_sq_eq_abs]

theorem frameForces_length {G : ℝ} {useBH : Bool} {theta : ℝ} {rnd : ℕ → ℕ → Vec3}
    {fuel : ℕ} {bodies : List Body} {forces : List Vec3}
    (hf : PhysicsEngine.frameForces G useBH theta rnd fuel bodies = some forces) :
    forces.length = bodies.length := by
  simp only [PhysicsEngine.frameForces] at hf
  split at hf
  · split at hf
    · exact absurd hf (by simp)
    · injection hf with h
      rw [← h, List.length_map]
  · injection hf with h
    rw [← h, List.length_map]

theorem update_spec {G : ℝ} {useBH : Bool} {theta : ℝ} {rnd : ℕ → ℕ → Vec3}
    {fuel : ℕ} {dt : ℝ} {bodies : List Body} {forces : List Vec3}
    (hf : PhysicsEngine.frameForces G useBH theta rnd fuel bodies = some forces) :
    ∃ out, PhysicsEngine.update G useBH theta rnd fuel dt bodies = some out ∧
      out.length = bodies.length ∧
      ∀ i, i < bodies.length →
        out.getD i default =
          symplecticStep dt (bodies.getD i default) (forces.getD i Vec3.zero) := by
  have hlen := frameForces_length hf
  refine ⟨((bodies.zip forces).map (PhysicsEngine.velocityStep dt)).map
    (PhysicsEngine.positionStep dt), ?_, ?_, ?_⟩
  · simp only [PhysicsEngine.update, hf]
  · simp [List.length_zip, hlen]
  · intro i hi
    have hz : i < (bodies.zip forces).length := by simp [List.length_zip, hlen]; omega
    have hm1 : i < ((bodies.zip forces).map (PhysicsEngine.velocityStep dt)).length := by
      simpa using hz
    have hm2 : i < (((bodies.zip forces).map (PhysicsEngine.velocityStep dt)).map
        (PhysicsEngine.positionStep dt)).length := by simpa using hz
    rw [List.getD_eq_getElem _ _ hm2, List.getElem_map, List.getElem_map, List.getElem_zip]
    rw [List.getD_eq_getElem _ _ hi, List.getD_eq_getElem _ _ (by omega : i < forces.length)]
    unfold PhysicsEngine.velocityStep PhysicsEngine.positionStep symplecticStep
    by_cases hs : bodies[i].isStatic
    · simp [hs]
    · simp [hs]

/-- C3: whenever the per-frame forces (computed from the pre-step body
list alone) are available, `update(dt)` performs semi-implicit Euler: each
non-static body gets `velocity += (force / mass) * dt` and then
`position += velocity * dt` using the already-updated velocity, while
static bodies are left untouched. -/
theorem update_is_symplectic_euler (G : ℝ) (useBH : Bool) (theta : ℝ)
    (rnd : ℕ → ℕ → Vec3) (fuel : ℕ) (dt : ℝ) (bodies : List Body) (forces : List Vec3)
    (hf : PhysicsEngine.frameForces G useBH theta rnd fuel bodies = some forces) :
    ∃ out, PhysicsEngine.update G useBH theta rnd fuel dt bodies = some out ∧
      out.length = bodies.length ∧
      ∀ i, i < bodies.length →
        out.getD i default =
          symplecticStep dt (bodies.getD i default) (forces.getD i Vec3.zero) :=
  update_spec hf

/-- Witness for C3: a one-body registry in direct mode, whose frame force
is the zero vector. -/
theorem update_is_symplectic_euler_witness :
    PhysicsEngine.frameForces 1 false 0.5 (fun _ _ => Vec3.zero) 0
        [Body.mk 0 2 ⟨1, 2, 3⟩ ⟨4, 5, 6⟩ false] = some [Vec3.zero] ∧
    ∃ out, PhysicsEngine.update 1 false 0.5 (fun _ _ => Vec3.zero) 0 (1 / 2)
        [Body.mk 0 2 ⟨1, 2, 3⟩ ⟨4, 5, 6⟩ false] = some out ∧
      out.length = [Body.mk 0 2 ⟨1, 2, 3⟩ ⟨4, 5, 6⟩ false].length ∧
      ∀ i, i < [Body.mk 0 2 ⟨1, 2, 3⟩ ⟨4, 5, 6⟩ false].length →
        out.getD i default =
          symplecticStep (1 / 2) ([Body.mk 0 2 ⟨1, 2, 3⟩ ⟨4, 5, 6⟩ false].getD i default)
            ([Vec3.zero].getD i Vec3.zero) := by
  have hf : PhysicsEngine.frameForces 1 false 0.5 (fun _ _ => Vec3.zero) 0
      [Body.mk 0 2 ⟨1, 2, 3⟩ ⟨4, 5, 6⟩ false] = some [Vec3.zero] := by
    simp [PhysicsEngine.frameForces, PhysicsEngine.calculateTotalForce]
  exact ⟨hf, update_is_symplectic_euler 1 false 0.5 (fun _ _ => Vec3.zero) 0 (1 / 2)
    [Body.mk 0 2 ⟨1, 2, 3⟩ ⟨4, 5, 6⟩ false] [Vec3.zero] hf⟩

theorem update_static_step {G : ℝ} {useBH : Bool} {theta : ℝ} {rnd : ℕ → ℕ → Vec3}
    {fuel : ℕ} {dt : ℝ} {bodies out : List Body}
    (h : PhysicsEngine.update G useBH theta rnd fuel dt bodies = some out) :
    out.length = bodies.length ∧
    ∀ i, i < bodies.length → (bodies.getD i default).isStatic = true →
      out.getD i default = bodies.getD i default := by
  have hff : ∃ forces, PhysicsEngine.frameForces G useBH theta rnd fuel bodies = some forces := by
    simp only [PhysicsEngine.update] at h
    cases hf : PhysicsEngine.frameForces G useBH theta rnd fuel bodies with
    | none => rw [hf] at h; cases h
    | some forces => exact ⟨forces, rfl⟩
  obtain ⟨forces, hf⟩ := hff
  obtain ⟨out1, hu1, hlen1, hent1⟩ := @update_spec G useBH theta rnd fuel dt bodies forces hf
  rw [h] at hu1
  injection hu1 with hout
  subst hout
  refine ⟨hlen1, fun i hi hs => ?_⟩
  rw [hent1 i hi]
  unfold symplecticStep
  rw [if_pos hs]

theorem iter_static {G : ℝ} {useBH : Bool} {theta : ℝ} {rnds : ℕ → ℕ → ℕ → Vec3}
    {fuel : ℕ} {dt : ℝ} :
    ∀ (n : ℕ) (bodies out : List Body),
      PhysicsEngine.iterUpdate G useBH theta rnds fuel dt n bodies = some out →
      out.length = bodies.length ∧
      ∀ i, i < bodies.length → (bodies.getD i default).isStatic = true →
        out.getD i default = bodies.getD i default
  | 0, bodies, out, h => by
    simp only [PhysicsEngine.iterUpdate] at h
    injection h with h
    subst h
    exact ⟨rfl, fun _ _ _ => rfl⟩
  | n + 1, bodies, out, h => by
    simp only [PhysicsEngine.iterUpdate] at h
    cases hu : PhysicsEngine.update G useBH theta (rnds n) fuel dt bodies with
    | none => rw [hu] at h; cases h
    | some bodies1 =>
      rw [hu] at h
      obtain ⟨hlen1, hent1⟩ := update_static_step hu
      obtain ⟨hlen2, hent2⟩ := iter_static n bodies1 out h
      refine ⟨hlen2.trans hlen1, fun i hi hs => ?_⟩
      have h1 : bodies1.getD i default = bodies.getD i default := hent1 i hi hs
      have hi1 : i < bodies1.length := by omega
      have hs1 : (bodies1.getD i default).isStatic = true := by rw [h1]; exact hs
      rw [hent2 i hi1 hs1, h1]

/-- C7: a static body's position and velocity are exactly unchanged by
any sequence of `update(dt)` calls, while the static flag has no effect on
the forces a body exerts on others (statics still act as force sources). -/
theorem static_invariance (G : ℝ) (useBH : Bool) (theta : ℝ) (rnds : ℕ → ℕ → ℕ → Vec3)
    (fuel : ℕ) (dt : ℝ) :
    (∀ (n : ℕ) (bodies out : List Body),
      PhysicsEngine.iterUpdate G useBH theta rnds fuel dt n bodies = some out →
      ∀ i, i < bodies.length → (bodies.getD i default).isStatic = true →
        (out.getD i default).position = (bodies.getD i default).position ∧
        (out.getD i default).velocity = (bodies.getD i default).velocity) ∧
    (∀ (rnd : ℕ → Vec3) (bodies : List Body) (b : Body) (flags : Body → Bool),
      PhysicsEngine.calculateTotalForce G rnd
          (bodies.map (fun c => { c with isStatic := flags c })) b =
        PhysicsEngine.calculateTotalForce G rnd bodies b) := by
  constructor
  · intro n bodies out h i hi hs
    obtain ⟨_, hent⟩ := iter_static n bodies out h
    rw [hent i hi hs]
    exact ⟨rfl, rfl⟩
  · intro rnd bodies b flags
    unfold PhysicsEngine.calculateTotalForce
    rw [List.foldl_map]
    rfl

/-- Witness for C7: two `update` calls leave a static body untouched, and
flipping static flags leaves the direct force unchanged. -/
theorem static_invariance_witness :
    (PhysicsEngine.iterUpdate 1 false 0.5 (fun _ _ _ => Vec3.zero) 0 1 2
        [Body.mk 0 3 ⟨7, 8, 9⟩ ⟨1, 1, 1⟩ true] = some [Body.mk 0 3 ⟨7, 8, 9⟩ ⟨1, 1, 1⟩ true]) ∧
    (([Body.mk 0 3 ⟨7, 8, 9⟩ ⟨1, 1, 1⟩ true].getD 0 default).position =
        ([Body.mk 0 3 ⟨7, 8, 9⟩ ⟨1, 1, 1⟩ true].getD 0 default).position ∧
      ([Body.mk 0 3 ⟨7, 8, 9⟩ ⟨1, 1, 1⟩ true].getD 0 default).velocity =
        ([Body.mk 0 3 ⟨7, 8, 9⟩ ⟨1, 1, 1⟩ true].getD 0 default).velocity) ∧
    PhysicsEngine.calculateTotalForce 1 (fun _ => Vec3.zero)
        ([Body.mk 0 3 ⟨7, 8, 9⟩ ⟨1, 1, 1⟩ true].map (fun c => { c with isStatic := false })) default =
      PhysicsEngine.calculateTotalForce 1 (fun _ => Vec3.zero)
        [Body.mk 0 3 ⟨7, 8, 9⟩ ⟨1, 1, 1⟩ true] default := by
  have hiter : PhysicsEngine.iterUpdate 1 false 0.5 (fun _ _ _ => Vec3.zero) 0 1 2
      [Body.mk 0 3 ⟨7, 8, 9⟩ ⟨1, 1, 1⟩ true] = some [Body.mk 0 3 ⟨7, 8, 9⟩ ⟨1, 1, 1⟩ true] := by
    simp [PhysicsEngine.iterUpdate, PhysicsEngine.update, PhysicsEngine.frameForces,
      PhysicsEngine.calculateTotalForce, PhysicsEngine.velocityStep, PhysicsEngine.positionStep]
  have h := static_invariance 1 false 0.5 (fun _ _ _ => Vec3.zero) 0 1
  refine ⟨hiter, ?_, ?_⟩
  · exact h.1 2 [Body.mk 0 3 ⟨7, 8, 9⟩ ⟨1, 1, 1⟩ true]
      [Body.mk 0 3 ⟨7, 8, 9⟩ ⟨1, 1, 1⟩ true] hiter 0 (by norm_num) rfl
  · exact h.2 (fun _ => Vec3.zero) [Body.mk 0 3 ⟨7, 8, 9⟩ ⟨1, 1, 1⟩ true] default
      (fun _ => false)

/-- C8: an empty or one-body registry yields the zero total force and a
total (non-failing) `update`; two bodies at identical positions yield a
force of bounded (finite) magnitude, the jitter branch avoiding any
zero-vector normalization. -/
theorem degenerate_inputs (G : ℝ) (rnd : ℕ → Vec3) (rnd2 : ℕ → ℕ → Vec3)
    (useBH : Bool) (theta dt : ℝ) (fuel : ℕ) (b b1 b2 : Body)
    (hid : b1.id ≠ b2.id) (hpos : b1.position = b2.position) :
    PhysicsEngine.calculateTotalForce G rnd [] b = Vec3.zero ∧
    PhysicsEngine.calculateTotalForce G rnd [b] b = Vec3.zero ∧
    (∃ out, PhysicsEngine.update G useBH theta rnd2 fuel dt [] = some out) ∧
    (∃ out, PhysicsEngine.update G useBH theta rnd2 fuel dt [b] = some out) ∧
    (∃ out, PhysicsEngine.update G useBH theta rnd2 fuel dt [b1, b2] = some out) ∧
    (PhysicsEngine.calculateTotalForce G rnd [b1, b2] b1).length ≤
      |G * (b1.mass * b2.mass)| / 0.01 := by
  have hupd : ∀ bs : List Body, bs.length ≤ 2 →
      ∃ out, PhysicsEngine.update G useBH theta rnd2 fuel dt bs = some out := by
    intro bs hlen
    simp only [PhysicsEngine.update, PhysicsEngine.frameForces]
    rw [if_neg (by rintro ⟨-, h2⟩; omega)]
    exact ⟨_, rfl⟩
  refine ⟨?_, ?_, ?_, ?_, ?_, ?_⟩
  · simp [PhysicsEngine.calculateTotalForce]
  · simp [PhysicsEngine.calculateTotalForce]
  · exact hupd [] (by simp)
  · exact hupd [b] (by simp)
  · exact hupd [b1, b2] (by simp)
  · have hsub : Vec3.sub b2.position b1.position = ⟨0, 0, 0⟩ := by
      rw [hpos]; simp [Vec3.sub]
    have hlsq : (Vec3.mk 0 0 0).lengthSq = 0 := by norm_num [Vec3.lengthSq]
    have hzadd : ∀ v : Vec3, Vec3.zero.add v = v := fun v => by
      rw [Vec3.add_eq, show Vec3.zero = (0 : Vec3) from rfl, zero_add]
    have hforce : PhysicsEngine.calculateTotalForce G rnd [b1, b2] b1 =
        PhysicsEngine.calculateGravityForce G (rnd b2.id) b1 b2 := by
      simp [PhysicsEngine.calculateTotalForce, hzadd, Ne.symm hid]
    rw [hforce]
    simp only [PhysicsEngine.calculateGravityForce, hsub, hlsq]
    rw [if_pos (by norm_num)]
    rw [vec3_length_smul]
    have hmax : Max.max (0 : ℝ) (0.1 * 0.1) = 0.01 := by norm_num
    rw [hmax]
    have h1 : (Vec3.mk ((rnd b2.id).x - 0.5) ((rnd b2.id).y - 0.5)
        ((rnd b2.id).z - 0.5)).normalize.length ≤ 1 := by
      exact vec3_normalize_length_le_one _
    have h2 : |G * (b1.mass * b2.mass) / 0.01| = |G * (b1.mass * b2.mass)| / 0.01 := by
      rw [abs_div, abs_of_pos (by norm_num : (0 : ℝ) < 0.01)]
    calc _ ≤ 1 * |G * (b1.mass * b2.mass) / 0.01| := by
          apply mul_le_mul_of_nonneg_right _ (abs_nonneg _)
          exact vec3_normalize_length_le_one _
      _ = |G * (b1.mass * b2.mass)| / 0.01 := by rw [one_mul, h2]

/-- Witness for C8. -/
theorem degenerate_inputs_witness :
    ((Body.mk 0 2 ⟨1, 1, 1⟩ Vec3.zero false).id ≠ (Body.mk 1 3 ⟨1, 1, 1⟩ Vec3.zero false).id) ∧
    (PhysicsEngine.calculateTotalForce 1 (fun _ => Vec3.zero) []
        (Body.mk 5 7 Vec3.zero Vec3.zero false) = Vec3.zero ∧
      PhysicsEngine.calculateTotalForce 1 (fun _ => Vec3.zero)
        [Body.mk 5 7 Vec3.zero Vec3.zero false] (Body.mk 5 7 Vec3.zero Vec3.zero false) =
        Vec3.zero ∧
      (∃ out, PhysicsEngine.update 1 true 0.5 (fun _ _ => Vec3.zero) 0 1 [] = some out) ∧
      (∃ out, PhysicsEngine.update 1 true 0.5 (fun _ _ => Vec3.zero) 0 1
        [Body.mk 5 7 Vec3.zero Vec3.zero false] = some out) ∧
      (∃ out, PhysicsEngine.update 1 true 0.5 (fun _ _ => Vec3.zero) 0 1
        [Body.mk 0 2 ⟨1, 1, 1⟩ Vec3.zero false, Body.mk 1 3 ⟨1, 1, 1⟩ Vec3.zero false] =
        some out) ∧
      (PhysicsEngine.calculateTotalForce 1 (fun _ => Vec3.zero)
          [Body.mk 0 2 ⟨1, 1, 1⟩ Vec3.zero false, Body.mk 1 3 ⟨1, 1, 1⟩ Vec3.zero false]
          (Body.mk 0 2 ⟨1, 1, 1⟩ Vec3.zero false)).length ≤
        |(1 : ℝ) * ((Body.mk 0 2 ⟨1, 1, 1⟩ Vec3.zero false).mass *
          (Body.mk 1 3 ⟨1, 1, 1⟩ Vec3.zero false).mass)| / 0.01) := by
  refine ⟨by norm_num, ?_⟩
  exact degenerate_inputs 1 (fun _ => Vec3.zero) (fun _ _ => Vec3.zero) true 0.5 1 0
    (Body.mk 5 7 Vec3.zero Vec3.zero false) (Body.mk 0 2 ⟨1, 1, 1⟩ Vec3.zero false)
    (Body.mk 1 3 ⟨1, 1, 1⟩ Vec3.zero false) (by norm_num) rfl

/-- C10: in the Barnes-Hut traversal a node whose center of mass lies
within `0.001` of the query position contributes exactly the zero vector
(whatever subtree it aggregates), with no random jitter; and a leaf node
holding another body is consumed as a point mass whose contribution does
not depend on its child slots (no recursion into it). -/
theorem bh_coincident_zero_and_leaf_pointmass (G theta : ℝ) (b : Body) :
    (∀ (com : Vec3) (tm : ℝ) (bo : Option Body) (c0 c1 c2 c3 c4 c5 c6 c7 : BHTree)
      (bd : Bounds) (F : Vec3),
      ¬ BHTree.sameBody bo b →
      (Vec3.sub com b.position).length < 0.001 →
      BHTree.calcForceRec G theta b (.node com tm bo c0 c1 c2 c3 c4 c5 c6 c7 bd false) F = F) ∧
    (∀ (com : Vec3) (tm : ℝ) (x : Body) (c0 c1 c2 c3 c4 c5 c6 c7 : BHTree)
      (bd : Bounds) (F : Vec3),
      x.id ≠ b.id →
      ¬ (Vec3.sub com b.position).length < 0.001 →
      BHTree.calcForceRec G theta b (.node com tm (some x) c0 c1 c2 c3 c4 c5 c6 c7 bd false) F =
        F.add ((Vec3.sub com b.position).normalize.smul
          (G * b.mass * tm /
            Max.max ((Vec3.sub com b.position).length * (Vec3.sub com b.position).length)
              (0.1 * 0.1)))) := by
  constructor
  · intro com tm bo c0 c1 c2 c3 c4 c5 c6 c7 bd F hself hnear
    simp only [BHTree.calcForceRec]
    rw [if_neg (by simp), if_neg hself, if_pos hnear]
  · intro com tm x c0 c1 c2 c3 c4 c5 c6 c7 bd F hx hfar
    simp only [BHTree.calcForceRec]
    rw [if_neg (by simp), if_neg (by simpa [BHTree.sameBody] using hx), if_neg hfar,
      if_pos (Or.inr (by simp))]

/-- Witness for C10: a query body coincident with the aggregate center of
a two-level internal subtree (holding two bodies) receives zero from it,
and a far leaf is consumed as a point mass with non-null children
present. -/
theorem bh_coincident_zero_and_leaf_pointmass_witness :
    ¬ BHTree.sameBody none (Body.mk 0 1 ⟨0, 0, 0⟩ Vec3.zero false) ∧
    (Vec3.sub ⟨0, 0, 0⟩ (Body.mk 0 1 ⟨0, 0, 0⟩ Vec3.zero false).position).length < 0.001 ∧
    BHTree.calcForceRec 1 0.5 (Body.mk 0 1 ⟨0, 0, 0⟩ Vec3.zero false)
      (.node ⟨0, 0, 0⟩ 20 none
        (.node ⟨3, 0, 0⟩ 10 (some (Body.mk 1 10 ⟨3, 0, 0⟩ Vec3.zero false))
          .null .null .null .null .null .null .null .null ⟨⟨0, -4, -4⟩, ⟨4, 4, 4⟩⟩ false)
        (.node ⟨-3, 0, 0⟩ 10 (some (Body.mk 2 10 ⟨-3, 0, 0⟩ Vec3.zero false))
          .null .null .null .null .null .null .null .null ⟨⟨-4, -4, -4⟩, ⟨0, 4, 4⟩⟩ false)
        .null .null .null .null .null .null ⟨⟨-4, -4, -4⟩, ⟨4, 4, 4⟩⟩ false)
      Vec3.zero = Vec3.zero ∧
    BHTree.calcForceRec 1 0.5 (Body.mk 0 1 ⟨0, 0, 0⟩ Vec3.zero false)
      (.node ⟨3, 0, 0⟩ 10 (some (Body.mk 1 10 ⟨3, 0, 0⟩ Vec3.zero false))
        (.node ⟨9, 9, 9⟩ 1 (some (Body.mk 3 1 ⟨9, 9, 9⟩ Vec3.zero false))
          .null .null .null .null .null .null .null .null ⟨⟨8, 8, 8⟩, ⟨9, 9, 9⟩⟩ false)
        .null .null .null .null .null .null .null ⟨⟨0, -4, -4⟩, ⟨4, 4, 4⟩⟩ false)
      Vec3.zero =
      Vec3.zero.add ((Vec3.sub ⟨3, 0, 0⟩
          (Body.mk 0 1 ⟨0, 0, 0⟩ Vec3.zero false).position).normalize.smul
        (1 * (Body.mk 0 1 ⟨0, 0, 0⟩ Vec3.zero false).mass * 10 /
          Max.max ((Vec3.sub ⟨3, 0, 0⟩ (Body.mk 0 1 ⟨0, 0, 0⟩ Vec3.zero false).position).length *
            (Vec3.sub ⟨3, 0, 0⟩ (Body.mk 0 1 ⟨0, 0, 0⟩ Vec3.zero false).position).length)
            (0.1 * 0.1))) := by
  have hzero : (Vec3.sub ⟨0, 0, 0⟩ (Body.mk 0 1 ⟨0, 0, 0⟩ Vec3.zero false).position).length
      < 0.001 := by
    show (Vec3.sub ⟨0, 0, 0⟩ ⟨0, 0, 0⟩).length < 0.001
    rw [show Vec3.sub ⟨0, 0, 0⟩ ⟨0, 0, 0⟩ = ⟨0, 0, 0⟩ by simp [Vec3.sub]]
    unfold Vec3.length
    rw [show (Vec3.mk 0 0 0).lengthSq = 0 by norm_num [Vec3.lengthSq], Real.sqrt_zero]
    norm_num
  have hfar : ¬ (Vec3.sub ⟨3, 0, 0⟩ (Body.mk 0 1 ⟨0, 0, 0⟩ Vec3.zero false).position).length
      < 0.001 := by
    show ¬ (Vec3.sub ⟨3, 0, 0⟩ ⟨0, 0, 0⟩).length < 0.001
    rw [show Vec3.sub ⟨3, 0, 0⟩ ⟨0, 0, 0⟩ = ⟨3, 0, 0⟩ by simp [Vec3.sub]]
    unfold Vec3.length
    rw [show (Vec3.mk 3 0 0).lengthSq = 3 ^ 2 by norm_num [Vec3.lengthSq], Real.sqrt_sq
      (by norm_num : (0 : ℝ) ≤ 3)]
    norm_num
  have h := bh_coincident_zero_and_leaf_pointmass 1 0.5 (Body.mk 0 1 ⟨0, 0, 0⟩ Vec3.zero false)
  refine ⟨by simp [BHTree.sameBody], hzero, ?_, ?_⟩
  · exact h.1 ⟨0, 0, 0⟩ 20 none _ _ .null .null .null .null .null .null
      ⟨⟨-4, -4, -4⟩, ⟨4, 4, 4⟩⟩ Vec3.zero (by simp [BHTree.sameBody]) hzero
  · exact h.2 ⟨3, 0, 0⟩ 10 (Body.mk 1 10 ⟨3, 0, 0⟩ Vec3.zero false) _ .null .null .null .null
      .null .null .null ⟨⟨0, -4, -4⟩, ⟨4, 4, 4⟩⟩ Vec3.zero (by norm_num) hfar

theorem vec3_normalize_pos_x (a : ℝ) (ha : 0 < a) : (Vec3.mk a 0 0).normalize = ⟨1, 0, 0⟩ := by
  have hlsq : (Vec3.mk a 0 0).lengthSq = a ^ 2 := by
    simp [Vec3.lengthSq]; ring
  have hlen : (Vec3.mk a 0 0).length = a := by
    unfold Vec3.length; rw [hlsq]; exact Real.sqrt_sq ha.le
  unfold Vec3.normalize
  rw [if_neg (by rw [hlen]; exact ha.ne.symm), hlen]
  ext <;> simp [Vec3.smul]
  field_simp

/-- C6 (amended): a non-coincident node that is a leaf or satisfies
`s / d < theta` is consumed as one point mass at its center of mass with
its total mass, under the direct evaluator's force formula and
minimum-distance clamp, without recursing; this coincides with the direct
evaluator's own treatment exactly when the squared distance is at least
`0.001` (below that the tree contributes zero where the direct evaluator
would jitter, see the counterexample). -/
theorem bh_node_treated_as_pointmass (G theta : ℝ) (b : Body) (com : Vec3) (tm : ℝ)
    (bo : Option Body) (c0 c1 c2 c3 c4 c5 c6 c7 : BHTree) (bd : Bounds) (F : Vec3)
    (hself : ¬ BHTree.sameBody bo b)
    (hfar : ¬ (Vec3.sub com b.position).length < 0.001)
    (hcond : Bounds.getSize bd / (Vec3.sub com b.position).length < theta ∨ bo.isSome = true) :
    BHTree.calcForceRec G theta b (.node com tm bo c0 c1 c2 c3 c4 c5 c6 c7 bd false) F =
      F.add ((Vec3.sub com b.position).normalize.smul
        (G * b.mass * tm / Max.max (Vec3.sub com b.position).lengthSq (0.1 * 0.1))) ∧
    (0.001 ≤ (Vec3.sub com b.position).lengthSq → ∀ r : Vec3,
      F.add ((Vec3.sub com b.position).normalize.smul
          (G * b.mass * tm / Max.max (Vec3.sub com b.position).lengthSq (0.1 * 0.1))) =
        F.add (PhysicsEngine.calculateGravityForce G r b (Body.mk 0 tm com Vec3.zero false))) := by
  constructor
  · simp only [BHTree.calcForceRec]
    rw [if_neg (by simp), if_neg hself, if_neg hfar, if_pos hcond,
      vec3_length_sq_self _ (Vec3.lengthSq_nonneg _)]
  · intro hge r
    congr 1
    simp only [PhysicsEngine.calculateGravityForce]
    rw [if_neg (by push_neg; exact hge)]
    congr 1
    ring

/-- Counterexample to C6 as stated: at a coincident leaf the tree
evaluator contributes nothing, while the direct evaluator's handling of
the same point mass is a (nonzero) normalized random jitter scaled by the
clamped magnitude — the two treatments differ. -/
theorem bh_coincident_not_direct_jitter :
    BHTree.calcForceRec 1 0.5 (Body.mk 0 1 ⟨0, 0, 0⟩ Vec3.zero false)
      (.node ⟨0, 0, 0⟩ 1 (some (Body.mk 1 1 ⟨0, 0, 0⟩ Vec3.zero false))
        .null .null .null .null .null .null .null .null
        ⟨⟨-1, -1, -1⟩, ⟨1, 1, 1⟩⟩ false)
      Vec3.zero = Vec3.zero ∧
    Vec3.zero.add (PhysicsEngine.calculateGravityForce 1 ⟨0.9, 0.5, 0.5⟩
        (Body.mk 0 1 ⟨0, 0, 0⟩ Vec3.zero false) (Body.mk 1 1 ⟨0, 0, 0⟩ Vec3.zero false)) =
      ⟨100, 0, 0⟩ ∧
    Vec3.mk 100 0 0 ≠ Vec3.zero := by
  have hsub0 : Vec3.sub (⟨0, 0, 0⟩ : Vec3) (⟨0, 0, 0⟩ : Vec3) = ⟨0, 0, 0⟩ := by
    simp [Vec3.sub]
  have hlen0 : (Vec3.mk 0 0 0).length = 0 := by
    unfold Vec3.length
    rw [show (Vec3.mk 0 0 0).lengthSq = 0 by norm_num [Vec3.lengthSq], Real.sqrt_zero]
  refine ⟨?_, ?_, ?_⟩
  · simp only [BHTree.calcForceRec]
    rw [if_neg (by simp), if_neg (by simp [BHTree.sameBody]), if_pos]
    show (Vec3.sub ⟨0, 0, 0⟩ ⟨0, 0, 0⟩).length < 0.001
    rw [hsub0, hlen0]
    norm_num
  · simp only [PhysicsEngine.calculateGravityForce]
    rw [if_pos (by norm_num [Vec3.sub, Vec3.lengthSq] :
      (Vec3.sub (Body.mk 1 1 ⟨0, 0, 0⟩ Vec3.zero false).position
        (Body.mk 0 1 ⟨0, 0, 0⟩ Vec3.zero false).position).lengthSq < 0.001)]
    rw [show Vec3.mk (((Vec3.mk (0.9 : ℝ) 0.5 0.5).x - 0.5) * 0.1)
        (((Vec3.mk (0.9 : ℝ) 0.5 0.5).y - 0.5) * 0.1)
        (((Vec3.mk (0.9 : ℝ) 0.5 0.5).z - 0.5) * 0.1) = Vec3.mk 0.04 0 0 by norm_num]
    rw [vec3_normalize_pos_x 0.04 (by norm_num)]
    rw [show Vec3.sub (Body.mk 1 1 ⟨0, 0, 0⟩ Vec3.zero false).position
        (Body.mk 0 1 ⟨0, 0, 0⟩ Vec3.zero false).position = ⟨0, 0, 0⟩ from hsub0]
    rw [show (Vec3.mk (0 : ℝ) 0 0).lengthSq = 0 by norm_num [Vec3.lengthSq]]
    rw [max_eq_right (by norm_num : (0 : ℝ) ≤ 0.1 * 0.1)]
    ext <;> norm_num [Vec3.smul, Vec3.add, Vec3.zero]
  · intro h
    have hx := congrArg Vec3.x h
    norm_num [Vec3.zero] at hx

/-- Witness for the amended C6 at a concrete far leaf. -/
theorem bh_node_treated_as_pointmass_witness :
    (¬ BHTree.sameBody (some (Body.mk 1 10 ⟨3, 0, 0⟩ Vec3.zero false))
        (Body.mk 0 1 ⟨0, 0, 0⟩ Vec3.zero false)) ∧
    (¬ (Vec3.sub ⟨3, 0, 0⟩ (Body.mk 0 1 ⟨0, 0, 0⟩ Vec3.zero false).position).length < 0.001) ∧
    (BHTree.calcForceRec 1 0.5 (Body.mk 0 1 ⟨0, 0, 0⟩ Vec3.zero false)
        (.node ⟨3, 0, 0⟩ 10 (some (Body.mk 1 10 ⟨3, 0, 0⟩ Vec3.zero false))
          .null .null .null .null .null .null .null .null ⟨⟨0, -4, -4⟩, ⟨4, 4, 4⟩⟩ false)
        Vec3.zero =
      Vec3.zero.add ((Vec3.sub ⟨3, 0, 0⟩
          (Body.mk 0 1 ⟨0, 0, 0⟩ Vec3.zero false).position).normalize.smul
        (1 * (Body.mk 0 1 ⟨0, 0, 0⟩ Vec3.zero false).mass * 10 /
          Max.max (Vec3.sub ⟨3, 0, 0⟩
            (Body.mk 0 1 ⟨0, 0, 0⟩ Vec3.zero false).position).lengthSq (0.1 * 0.1)))) ∧
    (0.001 ≤ (Vec3.sub ⟨3, 0, 0⟩ (Body.mk 0 1 ⟨0, 0, 0⟩ Vec3.zero false).position).lengthSq →
      ∀ r : Vec3,
      Vec3.zero.add ((Vec3.sub ⟨3, 0, 0⟩
          (Body.mk 0 1 ⟨0, 0, 0⟩ Vec3.zero false).position).normalize.smul
        (1 * (Body.mk 0 1 ⟨0, 0, 0⟩ Vec3.zero false).mass * 10 /
          Max.max (Vec3.sub ⟨3, 0, 0⟩
            (Body.mk 0 1 ⟨0, 0, 0⟩ Vec3.zero false).position).lengthSq (0.1 * 0.1))) =
        Vec3.zero.add (PhysicsEngine.calculateGravityForce 1 r
          (Body.mk 0 1 ⟨0, 0, 0⟩ Vec3.zero false) (Body.mk 0 10 ⟨3, 0, 0⟩ Vec3.zero false))) := by
  have hfar : ¬ (Vec3.sub ⟨3, 0, 0⟩ (Body.mk 0 1 ⟨0, 0, 0⟩ Vec3.zero false).position).length
      < 0.001 := by
    show ¬ (Vec3.sub ⟨3, 0, 0⟩ ⟨0, 0, 0⟩).length < 0.001
    rw [show Vec3.sub ⟨3, 0, 0⟩ ⟨0, 0, 0⟩ = ⟨3, 0, 0⟩ by simp [Vec3.sub]]
    unfold Vec3.length
    rw [show (Vec3.mk 3 0 0).lengthSq = 3 ^ 2 by norm_num [Vec3.lengthSq],
      Real.sqrt_sq (by norm_num : (0 : ℝ) ≤ 3)]
    norm_num
  have h := bh_node_treated_as_pointmass 1 0.5 (Body.mk 0 1 ⟨0, 0, 0⟩ Vec3.zero false)
    ⟨3, 0, 0⟩ 10 (some (Body.mk 1 10 ⟨3, 0, 0⟩ Vec3.zero false))
    .null .null .null .null .null .null .null .null ⟨⟨0, -4, -4⟩, ⟨4, 4, 4⟩⟩ Vec3.zero
    (by simp [BHTree.sameBody]) hfar (Or.inr (by simp))
  exact ⟨by simp [BHTree.sameBody], hfar, h.1, h.2⟩

theorem getOctant_lt_8 (bd : Bounds) (p : Vec3) : Bounds.getOctant bd p < 8 := by
  simp only [Bounds.getOctant]
  split <;> split <;> split <;> norm_num

/-- The octant child created for a position contains that position. -/
theorem childBounds_getOctant_contains (bd : Bounds) (p : Vec3)
    (h : Bounds.contains bd p) :
    Bounds.contains (Bounds.childBounds bd (Bounds.getOctant bd p)) p := by
  obtain ⟨h1, h2, h3, h4, h5, h6⟩ := h
  by_cases hx : (Bounds.getCenter bd).x ≤ p.x <;>
    by_cases hy : (Bounds.getCenter bd).y ≤ p.y <;>
      by_cases hz : (Bounds.getCenter bd).z ≤ p.z <;>
        · simp only [Bounds.getOctant, Bounds.childBounds, Bounds.contains, hx, hy, hz,
            if_true, if_false, iff_true, iff_false]
          norm_num
          all_goals and_intros
          all_goals linarith

theorem insertF_empty {body : Body} {n : ℕ} {com : Vec3} {tm : ℝ} {b : Option Body}
    {c0 c1 c2 c3 c4 c5 c6 c7 : BHTree} {bd : Bounds}
    (h : Bounds.contains bd body.position) :
    BHTree.insertF (n + 1) body (.node com tm b c0 c1 c2 c3 c4 c5 c6 c7 bd true) =
      some (.node body.position body.mass (some body) c0 c1 c2 c3 c4 c5 c6 c7 bd false) := by
  simp only [BHTree.insertF]
  rw [if_neg (by simpa using h)]
  rfl

theorem getChild_setChild {t : BHTree} {i : ℕ} {c : BHTree} (ht : t ≠ .null) (hi : i < 8) :
    BHTree.getChild (BHTree.setChild t i c) i = c := by
  cases t with
  | null => exact absurd rfl ht
  | node com tm b c0 c1 c2 c3 c4 c5 c6 c7 bd e => interval_cases i <;> rfl

/-- Inserting a body into a leaf holding a body at exactly the same
position exhausts any amount of fuel: the source recursion never
terminates on this input. -/
theorem insert_colocated_none (b2 : Body) :
    ∀ (n : ℕ) (com : Vec3) (tm : ℝ) (x : Body) (bd : Bounds),
      x.position = b2.position → Bounds.contains bd b2.position →
      BHTree.insertF n b2
        (.node com tm (some x) .null .null .null .null .null .null .null .null bd false) =
        none := by
  intro n
  induction n with
  | zero => intro com tm x bd hpos hin; rfl
  | succ n ih =>
    intro com tm x bd hpos hin
    simp only [BHTree.insertF]
    rw [if_neg (by simpa using hin)]
    rw [if_neg (by simp)]
    have heo : Bounds.getOctant bd x.position = Bounds.getOctant bd b2.position := by
      rw [hpos]
    have hens : BHTree.ensuredChild
        (.node com tm (some x) .null .null .null .null .null .null .null .null bd false) bd
        (Bounds.getOctant bd x.position) =
        BHTree.mkEmpty (Bounds.childBounds bd (Bounds.getOctant bd x.position)) := by
      unfold BHTree.ensuredChild BHTree.createChild
      have : BHTree.getChild
          (.node com tm (some x) .null .null .null .null .null .null .null .null bd false)
          (Bounds.getOctant bd x.position) = .null := by
        have h8 := getOctant_lt_8 bd x.position
        unfold BHTree.getChild
        interval_cases (Bounds.getOctant bd x.position) <;> rfl
      rw [this]
    rw [hens]
    have hcontains : Bounds.contains (Bounds.childBounds bd (Bounds.getOctant bd x.position))
        b2.position := by
      rw [heo]
      exact childBounds_getOctant_contains bd b2.position hin
    cases n with
    | zero => rfl
    | succ m =>
      have hcontains2 : Bounds.contains
          (Bounds.childBounds bd (Bounds.getOctant bd x.position)) x.position := by
        rw [hpos]
        exact childBounds_getOctant_contains bd b2.position hin
      rw [show BHTree.insertF (m + 1) x
          (BHTree.mkEmpty (Bounds.childBounds bd (Bounds.getOctant bd x.position))) =
          some (.node x.position x.mass (some x) .null .null .null .null .null .null .null .null
            (Bounds.childBounds bd (Bounds.getOctant bd x.position)) false) from by
        unfold BHTree.mkEmpty
        exact insertF_empty hcontains2]
      have hset : BHTree.getChild
          (BHTree.setChild
            (.node com tm none .null .null .null .null .null .null .null .null bd false)
            (Bounds.getOctant bd x.position)
            (.node x.position x.mass (some x) .null .null .null .null .null .null .null .null
              (Bounds.childBounds bd (Bounds.getOctant bd x.position)) false))
          (Bounds.getOctant bd b2.position) =
          (.node x.position x.mass (some x) .null .null .null .null .null .null .null .null
            (Bounds.childBounds bd (Bounds.getOctant bd x.position)) false) := by
        rw [← heo]
        exact getChild_setChild (by simp) (getOctant_lt_8 bd x.position)
      dsimp only
      unfold BHTree.ensuredChild
      rw [hset]
      rw [ih _ _ x _ hpos hcontains]


theorem foldl_min_le_init (f : Body → ℝ) :
    ∀ (l : List Body) (a : ℝ), List.foldl (fun acc c => Min.min acc (f c)) a l ≤ a
  | [], a => le_refl a
  | b :: l, a => by
    simp only [List.foldl_cons]
    exact (foldl_min_le_init f l (Min.min a (f b))).trans (min_le_left _ _)

theorem foldl_min_le_mem (f : Body → ℝ) :
    ∀ (l : List Body) (a : ℝ) (c : Body), c ∈ l →
      List.foldl (fun acc x => Min.min acc (f x)) a l ≤ f c := by
  intro l
  induction l with
  | nil => intro a c hc; cases hc
  | cons b rest ih =>
    intro a c hc
    simp only [List.foldl_cons]
    rcases List.mem_cons.mp hc with h | h
    · subst h
      exact (foldl_min_le_init f rest (Min.min a (f c))).trans (min_le_right _ _)
    · exact ih (Min.min a (f b)) c h

theorem init_le_foldl_max (f : Body → ℝ) :
    ∀ (l : List Body) (a : ℝ), a ≤ List.foldl (fun acc c => Max.max acc (f c)) a l
  | [], a => le_refl a
  | b :: l, a => by
    simp only [List.foldl_cons]
    exact (le_max_left a (f b)).trans (init_le_foldl_max f l (Max.max a (f b)))

theorem mem_le_foldl_max (f : Body → ℝ) :
    ∀ (l : List Body) (a : ℝ) (c : Body), c ∈ l →
      f c ≤ List.foldl (fun acc x => Max.max acc (f x)) a l := by
  intro l
  induction l with
  | nil => intro a c hc; cases hc
  | cons b rest ih =>
    intro a c hc
    simp only [List.foldl_cons]
    rcases List.mem_cons.mp hc with h | h
    · subst h
      exact (le_max_right a (f c)).trans (init_le_foldl_max f rest (Max.max a (f c)))
    · exact ih (Max.max a (f b)) c h

/-- Every body of a nonempty registry lies inside the padded bounding box
computed by `calculateBounds`. -/
theorem calculateBounds_contains (bodies : List Body) (padding : ℝ) (hpad : 0 ≤ padding) :
    ∀ c ∈ bodies, Bounds.contains (BHTree.calculateBounds bodies padding) c.position := by
  intro c hc
  cases bodies with
  | nil => cases hc
  | cons b rest =>
    simp only [BHTree.calculateBounds]
    rcases List.mem_cons.mp hc with h | h
    · subst h
      refine ⟨?_, ?_, ?_, ?_, ?_, ?_⟩ <;>
        · have h1 := foldl_min_le_init (fun c => c.position.x) rest c.position.x
          have h2 := init_le_foldl_max (fun c => c.position.x) rest c.position.x
          have h3 := foldl_min_le_init (fun c => c.position.y) rest c.position.y
          have h4 := init_le_foldl_max (fun c => c.position.y) rest c.position.y
          have h5 := foldl_min_le_init (fun c => c.position.z) rest c.position.z
          have h6 := init_le_foldl_max (fun c => c.position.z) rest c.position.z
          simp only []
          linarith
    · refine ⟨?_, ?_, ?_, ?_, ?_, ?_⟩ <;>
        · have h1 := foldl_min_le_mem (fun c => c.position.x) rest b.position.x c h
          have h2 := mem_le_foldl_max (fun c => c.position.x) rest b.position.x c h
          have h3 := foldl_min_le_mem (fun c => c.position.y) rest b.position.y c h
          have h4 := mem_le_foldl_max (fun c => c.position.y) rest b.position.y c h
          have h5 := foldl_min_le_mem (fun c => c.position.z) rest b.position.z c h
          have h6 := mem_le_foldl_max (fun c => c.position.z) rest b.position.z c h
          simp only []
          linarith

/-- C1 (refuting the claimed termination): building the tree over two
bodies at exactly the same position fails for every fuel bound — the
source insertion recursion has no minimum cell size or depth cap and
never terminates on this input. -/
theorem insert_colocated_diverges (b1 b2 : Body) (hpos : b1.position = b2.position) :
    ∀ fuel : ℕ,
      BHTree.buildTree fuel [b1, b2] (BHTree.calculateBounds [b1, b2] 10) = none := by
  intro fuel
  have hin1 : Bounds.contains (BHTree.calculateBounds [b1, b2] 10) b1.position :=
    calculateBounds_contains [b1, b2] 10 (by norm_num) b1 (by simp)
  have hin2 : Bounds.contains (BHTree.calculateBounds [b1, b2] 10) b2.position :=
    calculateBounds_contains [b1, b2] 10 (by norm_num) b2 (by simp)
  cases fuel with
  | zero => rfl
  | succ n =>
    simp only [BHTree.buildTree, List.foldlM_cons, List.foldlM_nil]
    rw [show BHTree.insertF (n + 1) b1
        (BHTree.mkEmpty (BHTree.calculateBounds [b1, b2] 10)) =
        some (.node b1.position b1.mass (some b1) .null .null .null .null .null .null .null
          .null (BHTree.calculateBounds [b1, b2] 10) false) from by
      unfold BHTree.mkEmpty
      exact insertF_empty hin1]
    simp only [Option.bind_eq_bind, Option.some_bind]
    rw [insert_colocated_none b2 (n + 1) b1.position b1.mass b1
      (BHTree.calculateBounds [b1, b2] 10) hpos hin2]
    rfl

/-- Witness for C1 at two concrete colocated bodies and fuel 5. -/
theorem insert_colocated_diverges_witness :
    (Body.mk 0 1 ⟨2, 3, 4⟩ Vec3.zero false).position =
      (Body.mk 1 2 ⟨2, 3, 4⟩ Vec3.zero false).position ∧
    BHTree.buildTree 5
      [Body.mk 0 1 ⟨2, 3, 4⟩ Vec3.zero false, Body.mk 1 2 ⟨2, 3, 4⟩ Vec3.zero false]
      (BHTree.calculateBounds
        [Body.mk 0 1 ⟨2, 3, 4⟩ Vec3.zero false, Body.mk 1 2 ⟨2, 3, 4⟩ Vec3.zero false] 10) =
      none :=
  ⟨rfl, insert_colocated_diverges (Body.mk 0 1 ⟨2, 3, 4⟩ Vec3.zero false)
    (Body.mk 1 2 ⟨2, 3, 4⟩ Vec3.zero false) rfl 5⟩

theorem getChild_allNull (com : Vec3) (tm : ℝ) (b : Option Body) (bd : Bounds) (e : Bool) :
    ∀ i, BHTree.getChild
      (.node com tm b .null .null .null .null .null .null .null .null bd e) i = .null := by
  intro i
  unfold BHTree.getChild
  rcases i with _ | _ | _ | _ | _ | _ | _ | _ | i <;> rfl

theorem getChild_ge8 (t : BHTree) (j : ℕ) (hj : 8 ≤ j) : BHTree.getChild t j = .null := by
  cases t with
  | null => rfl
  | node com tm b c0 c1 c2 c3 c4 c5 c6 c7 bd e =>
    unfold BHTree.getChild
    rcases j with _ | _ | _ | _ | _ | _ | _ | _ | j <;> first | omega | rfl

theorem getChild_setChild_ne {t : BHTree} {i j : ℕ} {c : BHTree} (hij : i ≠ j) :
    BHTree.getChild (BHTree.setChild t i c) j = BHTree.getChild t j := by
  cases t with
  | null => rfl
  | node com tm b c0 c1 c2 c3 c4 c5 c6 c7 bd e =>
    rcases i with _ | _ | _ | _ | _ | _ | _ | _ | i <;>
      rcases j with _ | _ | _ | _ | _ | _ | _ | _ | j <;>
        simp_all [BHTree.getChild, BHTree.setChild]

theorem wf_getChild {com : Vec3} {tm : ℝ} {b : Option Body}
    {c0 c1 c2 c3 c4 c5 c6 c7 : BHTree} {bd : Bounds} {e : Bool}
    (hw : BHTree.wf (.node com tm b c0 c1 c2 c3 c4 c5 c6 c7 bd e)) :
    ∀ i, BHTree.wf (BHTree.getChild (.node com tm b c0 c1 c2 c3 c4 c5 c6 c7 bd e) i) := by
  intro i
  obtain ⟨-, -, -, -, -, -, hw0, hw1, hw2, hw3, hw4, hw5, hw6, hw7⟩ := hw
  unfold BHTree.getChild
  rcases i with _ | _ | _ | _ | _ | _ | _ | _ | i <;>
    first | exact hw0 | exact hw1 | exact hw2 | exact hw3 | exact hw4 | exact hw5 |
      exact hw6 | exact hw7 | exact trivial

theorem childBounds_ordered (bd : Bounds) (o : ℕ) (h : BHTree.boxOrdered bd) :
    BHTree.boxOrdered (Bounds.childBounds bd o) := by
  obtain ⟨h1, h2, h3⟩ := h
  unfold BHTree.boxOrdered Bounds.childBounds Bounds.getCenter
  refine ⟨?_, ?_, ?_⟩ <;> simp only []
  all_goals split <;> linarith

theorem wf_mkEmpty (bd : Bounds) (h : BHTree.boxOrdered bd) : BHTree.wf (BHTree.mkEmpty bd) := by
  unfold BHTree.mkEmpty BHTree.wf
  refine ⟨h, ?_, ?_, ?_, ?_, ?_, trivial, trivial, trivial, trivial, trivial, trivial,
    trivial, trivial⟩
  · intro _
    exact ⟨rfl, rfl, rfl, rfl, rfl, rfl, rfl, rfl, rfl⟩
  · intro x hx
    cases hx
  · intro h2
    cases h2
  · intro h2 _
    cases h2
  · intro i hi
    exact absurd (getChild_allNull _ _ _ _ _ i) hi

theorem subtree_ignores_aggregates (com com2 : Vec3) (tm tm2 : ℝ) (b : Option Body)
    (c0 c1 c2 c3 c4 c5 c6 c7 : BHTree) (bd : Bounds) (e : Bool) :
    BHTree.subtreeBodies (.node com tm b c0 c1 c2 c3 c4 c5 c6 c7 bd e) =
      BHTree.subtreeBodies (.node com2 tm2 b c0 c1 c2 c3 c4 c5 c6 c7 bd e) := rfl

/-- Splitting the subtree body list of a node around one child slot: the
lists before and after the slot are unchanged by `setChild` at it. -/
theorem subtree_setChild (t : BHTree) (ht : t ≠ .null) (i : ℕ) (hi : i < 8) (c : BHTree) :
    ∃ pre post : List Body,
      BHTree.subtreeBodies t =
        pre ++ BHTree.subtreeBodies (BHTree.getChild t i) ++ post ∧
      BHTree.subtreeBodies (BHTree.setChild t i c) =
        pre ++ BHTree.subtreeBodies c ++ post := by
  obtain ⟨com, tm, b, c0, c1, c2, c3, c4, c5, c6, c7, bd, e, heq⟩ :
      ∃ (com : Vec3) (tm : ℝ) (b : Option Body) (c0 c1 c2 c3 c4 c5 c6 c7 : BHTree)
        (bd : Bounds) (e : Bool),
        t = .node com tm b c0 c1 c2 c3 c4 c5 c6 c7 bd e := by
    cases t with
    | null => exact absurd rfl ht
    | node a1 a2 a3 a4 a5 a6 a7 a8 a9 a10 a11 a12 a13 =>
      exact ⟨a1, a2, a3, a4, a5, a6, a7, a8, a9, a10, a11, a12, a13, rfl⟩
  subst heq
  interval_cases i
  · exact ⟨b.toList,
      BHTree.subtreeBodies c1 ++ BHTree.subtreeBodies c2 ++ BHTree.subtreeBodies c3 ++
        BHTree.subtreeBodies c4 ++ BHTree.subtreeBodies c5 ++ BHTree.subtreeBodies c6 ++
        BHTree.subtreeBodies c7,
      by simp [BHTree.subtreeBodies, BHTree.getChild, List.append_assoc],
      by simp [BHTree.subtreeBodies, BHTree.setChild, List.append_assoc]⟩
  · exact ⟨b.toList ++ BHTree.subtreeBodies c0,
      BHTree.subtreeBodies c2 ++ BHTree.subtreeBodies c3 ++ BHTree.subtreeBodies c4 ++
        BHTree.subtreeBodies c5 ++ BHTree.subtreeBodies c6 ++ BHTree.subtreeBodies c7,
      by simp [BHTree.subtreeBodies, BHTree.getChild, List.append_assoc],
      by simp [BHTree.subtreeBodies, BHTree.setChild, List.append_assoc]⟩
  · exact ⟨b.toList ++ BHTree.subtreeBodies c0 ++ BHTree.subtreeBodies c1,
      BHTree.subtreeBodies c3 ++ BHTree.subtreeBodies c4 ++ BHTree.subtreeBodies c5 ++
        BHTree.subtreeBodies c6 ++ BHTree.subtreeBodies c7,
      by simp [BHTree.subtreeBodies, BHTree.getChild, List.append_assoc],
      by simp [BHTree.subtreeBodies, BHTree.setChild, List.append_assoc]⟩
  · exact ⟨b.toList ++ BHTree.subtreeBodies c0 ++ BHTree.subtreeBodies c1 ++
        BHTree.subtreeBodies c2,
      BHTree.subtreeBodies c4 ++ BHTree.subtreeBodies c5 ++ BHTree.subtreeBodies c6 ++
        BHTree.subtreeBodies c7,
      by simp [BHTree.subtreeBodies, BHTree.getChild, List.append_assoc],
      by simp [BHTree.subtreeBodies, BHTree.setChild, List.append_assoc]⟩
  · exact ⟨b.toList ++ BHTree.subtreeBodies c0 ++ BHTree.subtreeBodies c1 ++
        BHTree.subtreeBodies c2 ++ BHTree.subtreeBodies c3,
      BHTree.subtreeBodies c5 ++ BHTree.subtreeBodies c6 ++ BHTree.subtreeBodies c7,
      by simp [BHTree.subtreeBodies, BHTree.getChild, List.append_assoc],
      by simp [BHTree.subtreeBodies, BHTree.setChild, List.append_assoc]⟩
  · exact ⟨b.toList ++ BHTree.subtreeBodies c0 ++ BHTree.subtreeBodies c1 ++
        BHTree.subtreeBodies c2 ++ BHTree.subtreeBodies c3 ++ BHTree.subtreeBodies c4,
      BHTree.subtreeBodies c6 ++ BHTree.subtreeBodies c7,
      by simp [BHTree.subtreeBodies, BHTree.getChild, List.append_assoc],
      by simp [BHTree.subtreeBodies, BHTree.setChild, List.append_assoc]⟩
  · exact ⟨b.toList ++ BHTree.subtreeBodies c0 ++ BHTree.subtreeBodies c1 ++
        BHTree.subtreeBodies c2 ++ BHTree.subtreeBodies c3 ++ BHTree.subtreeBodies c4 ++
        BHTree.subtreeBodies c5,
      BHTree.subtreeBodies c7,
      by simp [BHTree.subtreeBodies, BHTree.getChild, List.append_assoc],
      by simp [BHTree.subtreeBodies, BHTree.setChild, List.append_assoc]⟩
  · exact ⟨b.toList ++ BHTree.subtreeBodies c0 ++ BHTree.subtreeBodies c1 ++
        BHTree.subtreeBodies c2 ++ BHTree.subtreeBodies c3 ++ BHTree.subtreeBodies c4 ++
        BHTree.subtreeBodies c5 ++ BHTree.subtreeBodies c6,
      [],
      by simp [BHTree.subtreeBodies, BHTree.getChild, List.append_assoc],
      by simp [BHTree.subtreeBodies, BHTree.setChild, List.append_assoc]⟩

theorem bhBounds_setChild (t : BHTree) (i : ℕ) (c : BHTree) :
    BHTree.bhBounds (BHTree.setChild t i c) = BHTree.bhBounds t := by
  cases t with
  | null => rfl
  | node com tm b c0 c1 c2 c3 c4 c5 c6 c7 bd e =>
    rcases i with _ | _ | _ | _ | _ | _ | _ | _ | i <;> rfl

theorem bhBody_setChild (t : BHTree) (i : ℕ) (c : BHTree) :
    BHTree.bhBody (BHTree.setChild t i c) = BHTree.bhBody t := by
  cases t with
  | null => rfl
  | node com tm b c0 c1 c2 c3 c4 c5 c6 c7 bd e =>
    rcases i with _ | _ | _ | _ | _ | _ | _ | _ | i <;> rfl

theorem bhIsEmpty_setChild (t : BHTree) (i : ℕ) (c : BHTree) :
    BHTree.bhIsEmpty (BHTree.setChild t i c) = BHTree.bhIsEmpty t := by
  cases t with
  | null => rfl
  | node com tm b c0 c1 c2 c3 c4 c5 c6 c7 bd e =>
    rcases i with _ | _ | _ | _ | _ | _ | _ | _ | i <;> rfl

theorem setChild_ne_null {t : BHTree} (ht : t ≠ .null) (i : ℕ) (c : BHTree) :
    BHTree.setChild t i c ≠ .null := by
  cases t with
  | null => exact absurd rfl ht
  | node com tm b c0 c1 c2 c3 c4 c5 c6 c7 bd e =>
    rcases i with _ | _ | _ | _ | _ | _ | _ | _ | i <;> simp [BHTree.setChild]

theorem ensuredChild_of_ne {t : BHTree} {bd : Bounds} {o : ℕ}
    (h : BHTree.getChild t o ≠ .null) :
    BHTree.ensuredChild t bd o = BHTree.getChild t o := by
  unfold BHTree.ensuredChild
  cases hgc : BHTree.getChild t o with
  | null => exact absurd hgc h
  | node a1 a2 a3 a4 a5 a6 a7 a8 a9 a10 a11 a12 a13 => rfl

theorem ensuredChild_of_null {t : BHTree} {bd : Bounds} {o : ℕ}
    (h : BHTree.getChild t o = .null) :
    BHTree.ensuredChild t bd o = BHTree.createChild bd o := by
  unfold BHTree.ensuredChild
  rw [h]

/-- Rebuilding `wf` for an internal node after replacing one child slot.
The length obligations are supplied by the caller. -/
theorem wf_set {t : BHTree} {i : ℕ} {c : BHTree}
    (ht : t ≠ .null) (hb : BHTree.bhBody t = none) (he : BHTree.bhIsEmpty t = false)
    (hord : BHTree.boxOrdered (BHTree.bhBounds t))
    (hcb : ∀ j, BHTree.getChild t j ≠ .null →
      BHTree.bhBounds (BHTree.getChild t j) = Bounds.childBounds (BHTree.bhBounds t) j)
    (hwch : ∀ j, BHTree.wf (BHTree.getChild t j))
    (hi : i < 8) (hwc : BHTree.wf c)
    (hbc : BHTree.bhBounds c = Bounds.childBounds (BHTree.bhBounds t) i)
    (hl1 : 1 ≤ (BHTree.subtreeBodies (BHTree.setChild t i c)).length)
    (hl2 : 2 ≤ (BHTree.subtreeBodies (BHTree.setChild t i c)).length) :
    BHTree.wf (BHTree.setChild t i c) := by
  obtain ⟨com, tm, b, c0, c1, c2, c3, c4, c5, c6, c7, bd, e, heq⟩ :
      ∃ (com : Vec3) (tm : ℝ) (b : Option Body) (c0 c1 c2 c3 c4 c5 c6 c7 : BHTree)
        (bd : Bounds) (e : Bool),
        t = .node com tm b c0 c1 c2 c3 c4 c5 c6 c7 bd e := by
    cases t with
    | null => exact absurd rfl ht
    | node a1 a2 a3 a4 a5 a6 a7 a8 a9 a10 a11 a12 a13 =>
      exact ⟨a1, a2, a3, a4, a5, a6, a7, a8, a9, a10, a11, a12, a13, rfl⟩
  subst heq
  have hbeq : b = none := hb
  have heeq : e = false := he
  subst hbeq heeq
  interval_cases i <;>
    · refine ⟨hord, ?_, ?_, ?_, ?_, ?_, ?_, ?_, ?_, ?_, ?_, ?_, ?_, ?_⟩
      · intro hcon; cases hcon
      · intro x hx; cases hx
      · intro _
        exact hl1
      · intro _ _
        exact hl2
      · intro j hj
        by_cases hj8 : j < 8
        · interval_cases j <;>
            first
            | exact hbc
            | exact hcb 0 hj
            | exact hcb 1 hj
            | exact hcb 2 hj
            | exact hcb 3 hj
            | exact hcb 4 hj
            | exact hcb 5 hj
            | exact hcb 6 hj
            | exact hcb 7 hj
        · rw [getChild_ge8 _ j (by omega)] at hj
          exact absurd rfl hj
      all_goals
        first
        | exact hwc
        | exact hwch 0
        | exact hwch 1
        | exact hwch 2
        | exact hwch 3
        | exact hwch 4
        | exact hwch 5
        | exact hwch 6
        | exact hwch 7

/-- Replacing the child in slot `i` by a tree whose bodies are, up to
permutation, `L` plus the old child's bodies permutes the node's bodies
into `L` plus the old node's bodies. -/
theorem subtree_setChild_perm {t : BHTree} (ht : t ≠ .null) {i : ℕ} (hi : i < 8)
    {c : BHTree} {L : List Body}
    (hp : (BHTree.subtreeBodies c).Perm
      (L ++ BHTree.subtreeBodies (BHTree.getChild t i))) :
    (BHTree.subtreeBodies (BHTree.setChild t i c)).Perm (L ++ BHTree.subtreeBodies t) := by
  obtain ⟨pre, post, h1, h2⟩ := subtree_setChild t ht i hi c
  rw [h2, h1]
  have p1 := (hp.append_left pre).append_right post
  refine p1.trans ?_
  have e1 : pre ++ (L ++ BHTree.subtreeBodies (BHTree.getChild t i)) ++ post =
      (pre ++ L) ++ (BHTree.subtreeBodies (BHTree.getChild t i) ++ post) := by
    simp [List.append_assoc]
  have e2 : L ++ (pre ++ BHTree.subtreeBodies (BHTree.getChild t i) ++ post) =
      (L ++ pre) ++ (BHTree.subtreeBodies (BHTree.getChild t i) ++ post) := by
    simp [List.append_assoc]
  rw [e1, e2]
  exact List.perm_append_comm.append_right _

/-- Assembling the result node after a successful child insertion. -/
theorem insert_result_ok (body : Body) {t1 : BHTree} {o : ℕ} {cn : BHTree}
    (ht1 : t1 ≠ .null) (hb : BHTree.bhBody t1 = none) (he : BHTree.bhIsEmpty t1 = false)
    (hord : BHTree.boxOrdered (BHTree.bhBounds t1))
    (hcb : ∀ j, BHTree.getChild t1 j ≠ .null →
      BHTree.bhBounds (BHTree.getChild t1 j) = Bounds.childBounds (BHTree.bhBounds t1) j)
    (hwch : ∀ j, BHTree.wf (BHTree.getChild t1 j))
    (ho : o < 8) (hwcn : BHTree.wf cn)
    (hbcn : BHTree.bhBounds cn = Bounds.childBounds (BHTree.bhBounds t1) o)
    (hp : (BHTree.subtreeBodies cn).Perm
      ([body] ++ BHTree.subtreeBodies (BHTree.getChild t1 o)))
    (hsub1 : 1 ≤ (BHTree.subtreeBodies t1).length) :
    BHTree.wf (BHTree.setChild t1 o cn) ∧
    BHTree.bhBounds (BHTree.setChild t1 o cn) = BHTree.bhBounds t1 ∧
    BHTree.setChild t1 o cn ≠ .null ∧
    (BHTree.subtreeBodies (BHTree.setChild t1 o cn)).Perm
      (body :: BHTree.subtreeBodies t1) := by
  have hperm := subtree_setChild_perm ht1 ho hp
  have hlen2 : 2 ≤ (BHTree.subtreeBodies (BHTree.setChild t1 o cn)).length := by
    rw [hperm.length_eq]
    simp only [List.length_append, List.length_cons, List.length_nil]
    omega
  exact ⟨wf_set ht1 hb he hord hcb hwch ho hwcn hbcn (le_trans (by norm_num) hlen2) hlen2,
    bhBounds_setChild _ _ _, setChild_ne_null ht1 _ _, hperm⟩

/-- Soundness of one `insert` run that terminates within its fuel: it
preserves well-formedness and the node's box, returns a live node, and —
when the body lies inside the box — adds exactly that body to the
subtree's body multiset (bodies outside the box are silently dropped,
leaving the tree unchanged). -/
theorem insertF_sound :
    ∀ (n : ℕ) (body : Body) (t t' : BHTree), BHTree.insertF n body t = some t' →
      BHTree.wf t →
      BHTree.wf t' ∧ BHTree.bhBounds t' = BHTree.bhBounds t ∧ t' ≠ .null ∧
      (if Bounds.contains (BHTree.bhBounds t) body.position
        then (BHTree.subtreeBodies t').Perm (body :: BHTree.subtreeBodies t)
        else t' = t) := by
  intro n
  induction n with
  | zero =>
    intro body t t' h hw
    exact absurd h (by simp [BHTree.insertF])
  | succ n ih =>
    intro body t t' h hw
    cases t with
    | null => exact absurd h (by simp [BHTree.insertF])
    | node com tm b c0 c1 c2 c3 c4 c5 c6 c7 bd e =>
      rw [show BHTree.bhBounds (.node com tm b c0 c1 c2 c3 c4 c5 c6 c7 bd e) = bd from rfl]
      by_cases hc : Bounds.contains bd body.position
      swap
      · simp only [BHTree.insertF] at h
        rw [if_pos hc] at h
        injection h with h
        subst h
        rw [if_neg hc]
        exact ⟨hw, rfl, by simp, rfl⟩
      · rw [if_pos hc]
        cases e with
        | true =>
          simp only [BHTree.insertF] at h
          rw [if_neg (not_not_intro hc), if_pos trivial] at h
          injection h with h
          subst h
          obtain ⟨hord, hemp, -, -, -, -, -, -, -, -, -, -, -, -⟩ := hw
          obtain ⟨hbnone, he0, he1, he2, he3, he4, he5, he6, he7⟩ := hemp rfl
          subst hbnone he0 he1 he2 he3 he4 he5 he6 he7
          refine ⟨?_, rfl, by simp, ?_⟩
          · refine ⟨hord, ?_, ?_, ?_, ?_, ?_, trivial, trivial, trivial, trivial, trivial,
              trivial, trivial, trivial⟩
            · intro hcon; cases hcon
            · intro x hx
              injection hx with hx
              subst hx
              exact ⟨hc, rfl, rfl, rfl, rfl, rfl, rfl, rfl, rfl⟩
            · intro _
              simp [BHTree.subtreeBodies]
            · intro _ hcon; cases hcon
            · intro i hi
              exact absurd (getChild_allNull _ _ _ _ _ i) hi
          · simp [BHTree.subtreeBodies]
        | false =>
          cases b with
          | some existing =>
            obtain ⟨hord, -, hleaf, -, -, -, -, -, -, -, -, -, -, -⟩ := hw
            obtain ⟨hexc, he0, he1, he2, he3, he4, he5, he6, he7⟩ := hleaf existing rfl
            subst he0 he1 he2 he3 he4 he5 he6 he7
            simp only [BHTree.insertF] at h
            rw [if_neg (not_not_intro hc), if_neg (by simp)] at h
            rw [ensuredChild_of_null (getChild_allNull _ _ _ _ _ _)] at h
            cases hins1 : BHTree.insertF n existing
                (BHTree.createChild bd (Bounds.getOctant bd existing.position)) with
            | none => rw [hins1] at h; cases h
            | some ce =>
              simp only [hins1] at h
              have hwce0 : BHTree.wf
                  (BHTree.createChild bd (Bounds.getOctant bd existing.position)) := by
                unfold BHTree.createChild
                exact wf_mkEmpty _ (childBounds_ordered bd _ hord)
              obtain ⟨hwce, hbce, hnce, hpce⟩ := ih existing _ _ hins1 hwce0
              have hbce' : BHTree.bhBounds ce =
                  Bounds.childBounds bd (Bounds.getOctant bd existing.position) := hbce
              have hcex : Bounds.contains
                  (BHTree.bhBounds
                    (BHTree.createChild bd (Bounds.getOctant bd existing.position)))
                  existing.position :=
                childBounds_getOctant_contains bd existing.position hexc
              rw [if_pos hcex] at hpce
              have hpce2 : (BHTree.subtreeBodies ce).Perm [existing] := by
                simpa [BHTree.createChild, BHTree.mkEmpty, BHTree.subtreeBodies] using hpce
              have hbase : (BHTree.node com tm none .null .null .null .null .null .null .null
                  .null bd false) ≠ BHTree.null := by simp
              have ht1perm : (BHTree.subtreeBodies
                  (BHTree.setChild (.node com tm none .null .null .null .null .null .null
                    .null .null bd false) (Bounds.getOctant bd existing.position) ce)).Perm
                  [existing] := by
                have hparg : (BHTree.subtreeBodies ce).Perm ([existing] ++
                    BHTree.subtreeBodies (BHTree.getChild (.node com tm none .null .null
                      .null .null .null .null .null .null bd false)
                      (Bounds.getOctant bd existing.position))) := by
                  rw [getChild_allNull]
                  simpa [BHTree.subtreeBodies] using hpce2
                have hx := subtree_setChild_perm hbase
                  (getOctant_lt_8 bd existing.position) hparg
                simpa [BHTree.subtreeBodies] using hx
              have ht1ne : BHTree.setChild (.node com tm none .null .null .null .null .null
                  .null .null .null bd false) (Bounds.getOctant bd existing.position) ce ≠
                  BHTree.null := setChild_ne_null hbase _ _
              have hgcsame : BHTree.getChild
                  (BHTree.setChild (.node com tm none .null .null .null .null .null .null
                    .null .null bd false) (Bounds.getOctant bd existing.position) ce)
                  (Bounds.getOctant bd existing.position) = ce :=
                getChild_setChild hbase (getOctant_lt_8 bd existing.position)
              have ht1cb : ∀ j, BHTree.getChild
                  (BHTree.setChild (.node com tm none .null .null .null .null .null .null
                    .null .null bd false) (Bounds.getOctant bd existing.position) ce) j ≠
                    .null →
                  BHTree.bhBounds (BHTree.getChild
                    (BHTree.setChild (.node com tm none .null .null .null .null .null .null
                      .null .null bd false) (Bounds.getOctant bd existing.position) ce) j) =
                    Bounds.childBounds bd j := by
                intro j hj
                by_cases hje : Bounds.getOctant bd existing.position = j
                · subst hje
                  rw [hgcsame]
                  exact hbce'
                · rw [getChild_setChild_ne hje] at hj ⊢
                  rw [getChild_allNull] at hj
                  exact absurd rfl hj
              have ht1wch : ∀ j, BHTree.wf (BHTree.getChild
                  (BHTree.setChild (.node com tm none .null .null .null .null .null .null
                    .null .null bd false) (Bounds.getOctant bd existing.position) ce) j) := by
                intro j
                by_cases hje : Bounds.getOctant bd existing.position = j
                · subst hje
                  rw [hgcsame]
                  exact hwce
                · rw [getChild_setChild_ne hje, getChild_allNull]
                  trivial
              have ht1bd : BHTree.bhBounds
                  (BHTree.setChild (.node com tm none .null .null .null .null .null .null
                    .null .null bd false) (Bounds.getOctant bd existing.position) ce) =
                  bd := bhBounds_setChild _ _ _
              have horig : BHTree.subtreeBodies (.node com tm (some existing) .null .null
                  .null .null .null .null .null .null bd false) = [existing] := by
                simp [BHTree.subtreeBodies]
              by_cases heq : Bounds.getOctant bd body.position =
                  Bounds.getOctant bd existing.position
              · rw [heq] at h
                rw [ensuredChild_of_ne (by rw [hgcsame]; exact hnce), hgcsame] at h
                cases hins2 : BHTree.insertF n body ce with
                | none => rw [hins2] at h; cases h
                | some cn =>
                  simp only [hins2] at h
                  injection h with h
                  subst h
                  obtain ⟨hwcn, hbcn, hncn, hpcn⟩ := ih body _ _ hins2 hwce
                  have hcbody : Bounds.contains (BHTree.bhBounds ce) body.position := by
                    rw [hbce', ← heq]
                    exact childBounds_getOctant_contains bd body.position hc
                  rw [if_pos hcbody] at hpcn
                  have hres := insert_result_ok body ht1ne
                    (by rw [bhBody_setChild]; rfl)
                    (by rw [bhIsEmpty_setChild]; rfl)
                    (by rw [ht1bd]; exact hord)
                    (fun j hj => by rw [ht1bd]; exact ht1cb j hj)
                    ht1wch (getOctant_lt_8 bd existing.position) hwcn
                    (by rw [ht1bd, hbcn, hbce'])
                    (by rw [hgcsame]; exact hpcn)
                    (by rw [ht1perm.length_eq]; norm_num)
                  refine ⟨hres.1, ?_, hres.2.2.1, ?_⟩
                  · rw [hres.2.1, ht1bd]
                  · refine hres.2.2.2.trans ?_
                    refine List.Perm.cons body ?_
                    rw [horig]
                    exact ht1perm
              · have hgcno : BHTree.getChild
                    (BHTree.setChild (.node com tm none .null .null .null .null .null .null
                      .null .null bd false) (Bounds.getOctant bd existing.position) ce)
                    (Bounds.getOctant bd body.position) = .null := by
                  rw [getChild_setChild_ne (fun hh => heq hh.symm)]
                  rw [getChild_allNull]
                rw [ensuredChild_of_null hgcno] at h
                cases hins2 : BHTree.insertF n body
                    (BHTree.createChild bd (Bounds.getOctant bd body.position)) with
                | none => rw [hins2] at h; cases h
                | some cn =>
                  simp only [hins2] at h
                  injection h with h
                  subst h
                  have hwcn0 : BHTree.wf
                      (BHTree.createChild bd (Bounds.getOctant bd body.position)) := by
                    unfold BHTree.createChild
                    exact wf_mkEmpty _ (childBounds_ordered bd _ hord)
                  obtain ⟨hwcn, hbcn, hncn, hpcn⟩ := ih body _ _ hins2 hwcn0
                  have hcbody : Bounds.contains
                      (BHTree.bhBounds
                        (BHTree.createChild bd (Bounds.getOctant bd body.position)))
                      body.position :=
                    childBounds_getOctant_contains bd body.position hc
                  rw [if_pos hcbody] at hpcn
                  have hpcn2 : (BHTree.subtreeBodies cn).Perm [body] := by
                    simpa [BHTree.createChild, BHTree.mkEmpty, BHTree.subtreeBodies]
                      using hpcn
                  have hres := insert_result_ok body ht1ne
                    (by rw [bhBody_setChild]; rfl)
                    (by rw [bhIsEmpty_setChild]; rfl)
                    (by rw [ht1bd]; exact hord)
                    (fun j hj => by rw [ht1bd]; exact ht1cb j hj)
                    ht1wch (getOctant_lt_8 bd body.position) hwcn
                    (by rw [ht1bd]; exact hbcn)
                    (by rw [hgcno]; simpa [BHTree.subtreeBodies] using hpcn2)
                    (by rw [ht1perm.length_eq]; norm_num)
                  refine ⟨hres.1, ?_, hres.2.2.1, ?_⟩
                  · rw [hres.2.1, ht1bd]
                  · refine hres.2.2.2.trans ?_
                    refine List.Perm.cons body ?_
                    rw [horig]
                    exact ht1perm
          | none =>
            have hord := hw.1
            have hcl3 := hw.2.2.2.1
            have hcl5 := hw.2.2.2.2.2.1
            simp only [BHTree.insertF] at h
            rw [if_neg (not_not_intro hc), if_neg (by simp)] at h
            by_cases hnull : BHTree.getChild
                (.node com tm none c0 c1 c2 c3 c4 c5 c6 c7 bd false)
                (Bounds.getOctant bd body.position) = .null
            · rw [ensuredChild_of_null hnull] at h
              cases hins : BHTree.insertF n body
                  (BHTree.createChild bd (Bounds.getOctant bd body.position)) with
              | none => rw [hins] at h; cases h
              | some cn =>
                simp only [hins] at h
                injection h with h
                subst h
                have hwcn0 : BHTree.wf
                    (BHTree.createChild bd (Bounds.getOctant bd body.position)) := by
                  unfold BHTree.createChild
                  exact wf_mkEmpty _ (childBounds_ordered bd _ hord)
                obtain ⟨hwcn, hbcn, hncn, hpcn⟩ := ih body _ _ hins hwcn0
                have hcbody : Bounds.contains
                    (BHTree.bhBounds
                      (BHTree.createChild bd (Bounds.getOctant bd body.position)))
                    body.position :=
                  childBounds_getOctant_contains bd body.position hc
                rw [if_pos hcbody] at hpcn
                have hpcn2 : (BHTree.subtreeBodies cn).Perm [body] := by
                  simpa [BHTree.createChild, BHTree.mkEmpty, BHTree.subtreeBodies] using hpcn
                have hres := @insert_result_ok body (.node com tm none c0 c1 c2 c3 c4 c5
                    c6 c7 bd false) (Bounds.getOctant bd body.position) cn
                  (by simp) rfl rfl hord (fun j hj => hcl5 j hj) (wf_getChild hw)
                  (getOctant_lt_8 bd body.position) hwcn hbcn
                  (by rw [hnull]; simpa [BHTree.subtreeBodies] using hpcn2)
                  (hcl3 rfl)
                exact ⟨hres.1, hres.2.1, hres.2.2.1, hres.2.2.2⟩
            · rw [ensuredChild_of_ne hnull] at h
              cases hins : BHTree.insertF n body
                  (BHTree.getChild (.node com tm none c0 c1 c2 c3 c4 c5 c6 c7 bd false)
                    (Bounds.getOctant bd body.position)) with
              | none => rw [hins] at h; cases h
              | some cn =>
                simp only [hins] at h
                injection h with h
                subst h
                obtain ⟨hwcn, hbcn, hncn, hpcn⟩ := ih body _ _ hins
                  (wf_getChild hw (Bounds.getOctant bd body.position))
                have hgb : BHTree.bhBounds
                    (BHTree.getChild (.node com tm none c0 c1 c2 c3 c4 c5 c6 c7 bd false)
                      (Bounds.getOctant bd body.position)) =
                    Bounds.childBounds bd (Bounds.getOctant bd body.position) :=
                  hcl5 _ hnull
                have hcont : Bounds.contains
                    (BHTree.bhBounds
                      (BHTree.getChild (.node com tm none c0 c1 c2 c3 c4 c5 c6 c7 bd false)
                        (Bounds.getOctant bd body.position)))
                    body.position := by
                  rw [hgb]
                  exact childBounds_getOctant_contains bd body.position hc
                rw [if_pos hcont] at hpcn
                have hres := @insert_result_ok body (.node com tm none c0 c1 c2 c3 c4 c5
                    c6 c7 bd false) (Bounds.getOctant bd body.position) cn
                  (by simp) rfl rfl hord (fun j hj => hcl5 j hj) (wf_getChild hw)
                  (getOctant_lt_8 bd body.position) hwcn (by rw [hbcn, hgb]; rfl)
                  hpcn (hcl3 rfl)
                exact ⟨hres.1, hres.2.1, hres.2.2.1, hres.2.2.2⟩

/-- The aggregate pass leaves the tree's structure untouched: bodies,
bounds, emptiness, and body slots are all preserved. -/
theorem updateCOM_fields : ∀ t : BHTree,
    BHTree.subtreeBodies (BHTree.updateCOM t) = BHTree.subtreeBodies t ∧
    BHTree.bhBounds (BHTree.updateCOM t) = BHTree.bhBounds t ∧
    BHTree.bhIsEmpty (BHTree.updateCOM t) = BHTree.bhIsEmpty t ∧
    BHTree.bhBody (BHTree.updateCOM t) = BHTree.bhBody t ∧
    (BHTree.updateCOM t = .null ↔ t = .null) := by
  intro t
  induction t with
  | null => exact ⟨rfl, rfl, rfl, rfl, Iff.rfl⟩
  | node com tm b c0 c1 c2 c3 c4 c5 c6 c7 bd e ih0 ih1 ih2 ih3 ih4 ih5 ih6 ih7 =>
    simp only [BHTree.updateCOM]
    cases e with
    | true =>
      rw [if_pos rfl]
      exact ⟨rfl, rfl, rfl, rfl, by simp⟩
    | false =>
      rw [if_neg (by simp)]
      cases b with
      | some x => exact ⟨rfl, rfl, rfl, rfl, by simp⟩
      | none =>
        split
        · rename_i x heq
          exact Option.noConfusion heq
        · split
          · refine ⟨?_, rfl, rfl, rfl, by simp⟩
            simp only [BHTree.subtreeBodies, ih0.1, ih1.1, ih2.1, ih3.1, ih4.1, ih5.1,
              ih6.1, ih7.1]
          · refine ⟨?_, rfl, rfl, rfl, by simp⟩
            simp only [BHTree.subtreeBodies, ih0.1, ih1.1, ih2.1, ih3.1, ih4.1, ih5.1,
              ih6.1, ih7.1]

/-- The aggregate pass preserves structural well-formedness. -/
theorem wf_updateCOM : ∀ t : BHTree, BHTree.wf t → BHTree.wf (BHTree.updateCOM t) := by
  intro t
  induction t with
  | null => intro h; trivial
  | node com tm b c0 c1 c2 c3 c4 c5 c6 c7 bd e ih0 ih1 ih2 ih3 ih4 ih5 ih6 ih7 =>
    intro hw
    obtain ⟨hord, hcl1, hcl2, hcl3, hcl4, hcl5, hw0, hw1, hw2, hw3, hw4, hw5, hw6, hw7⟩ := hw
    simp only [BHTree.updateCOM]
    cases e with
    | true =>
      rw [if_pos rfl]
      exact ⟨hord, hcl1, hcl2, hcl3, hcl4, hcl5, hw0, hw1, hw2, hw3, hw4, hw5, hw6, hw7⟩
    | false =>
      rw [if_neg (by simp)]
      cases b with
      | some x =>
        obtain ⟨hxc, he0, he1, he2, he3, he4, he5, he6, he7⟩ := hcl2 x rfl
        subst he0 he1 he2 he3 he4 he5 he6 he7
        refine ⟨hord, ?_, ?_, ?_, ?_, ?_, trivial, trivial, trivial, trivial, trivial,
          trivial, trivial, trivial⟩
        · intro hcon; cases hcon
        · intro y hy
          injection hy with hy
          subst hy
          exact ⟨hxc, rfl, rfl, rfl, rfl, rfl, rfl, rfl, rfl⟩
        · intro _
          simp [BHTree.subtreeBodies]
        · intro _ hcon; cases hcon
        · intro i hi
          exact absurd (getChild_allNull _ _ _ _ _ i) hi
      | none =>
        have hsub : ∀ cc : BHTree, BHTree.subtreeBodies (BHTree.updateCOM cc) =
            BHTree.subtreeBodies cc := fun cc => (updateCOM_fields cc).1
        have hbd : ∀ cc : BHTree, BHTree.bhBounds (BHTree.updateCOM cc) =
            BHTree.bhBounds cc := fun cc => (updateCOM_fields cc).2.1
        have hnn : ∀ cc : BHTree, BHTree.updateCOM cc = .null ↔ cc = .null :=
          fun cc => (updateCOM_fields cc).2.2.2.2
        have hmain : ∀ (com2 : Vec3) (tm2 : ℝ),
            BHTree.wf (.node com2 tm2 none (BHTree.updateCOM c0) (BHTree.updateCOM c1)
              (BHTree.updateCOM c2) (BHTree.updateCOM c3) (BHTree.updateCOM c4)
              (BHTree.updateCOM c5) (BHTree.updateCOM c6) (BHTree.updateCOM c7) bd false) := by
          intro com2 tm2
          refine ⟨hord, ?_, ?_, ?_, ?_, ?_, ih0 hw0, ih1 hw1, ih2 hw2, ih3 hw3, ih4 hw4,
            ih5 hw5, ih6 hw6, ih7 hw7⟩
          · intro hcon; cases hcon
          · intro y hy; cases hy
          · intro _
            have h1 := hcl3 rfl
            simp only [BHTree.subtreeBodies, hsub] at h1 ⊢
            exact h1
          · intro _ _
            have h1 := hcl4 rfl rfl
            simp only [BHTree.subtreeBodies, hsub] at h1 ⊢
            exact h1
          · intro i hi
            by_cases hi8 : i < 8
            · have hgc : ∀ j, j < 8 → BHTree.getChild (.node Vec3.zero 0 none
                  (BHTree.updateCOM c0) (BHTree.updateCOM c1) (BHTree.updateCOM c2)
                  (BHTree.updateCOM c3) (BHTree.updateCOM c4) (BHTree.updateCOM c5)
                  (BHTree.updateCOM c6) (BHTree.updateCOM c7) bd false) j =
                  BHTree.updateCOM (BHTree.getChild
                    (.node Vec3.zero 0 none c0 c1 c2 c3 c4 c5 c6 c7 bd false) j) := by
                intro j hj
                interval_cases j <;> rfl
              rw [hgc i hi8] at hi ⊢
              rw [hbd]
              refine hcl5 i ?_
              intro hcon
              rw [hcon] at hi
              exact hi rfl
            · rw [getChild_ge8 _ i (by omega)] at hi
              exact absurd rfl hi
        split
        · rename_i x heq
          exact Option.noConfusion heq
        · split
          · exact hmain _ _
          · exact hmain _ _

/-- Scaling twice multiplies the scalars. -/
theorem vec3_smul_smul (v : Vec3) (a b : ℝ) :
    (v.smul a).smul b = v.smul (a * b) := by
  ext <;> simp [Vec3.smul] <;> ring

/-- Scaling by one is the identity. -/
theorem vec3_smul_one (v : Vec3) : v.smul 1 = v := by
  ext <;> simp [Vec3.smul]

/-- The mass of a node's subtree splits into the masses of its children's
subtrees (for a body-free slot). -/
theorem subtreeMass_node (com : Vec3) (tm : ℝ) (c0 c1 c2 c3 c4 c5 c6 c7 : BHTree)
    (bd : Bounds) (e : Bool) :
    BHTree.subtreeMass (.node com tm none c0 c1 c2 c3 c4 c5 c6 c7 bd e) =
      BHTree.subtreeMass c0 + BHTree.subtreeMass c1 + BHTree.subtreeMass c2 +
      BHTree.subtreeMass c3 + BHTree.subtreeMass c4 + BHTree.subtreeMass c5 +
      BHTree.subtreeMass c6 + BHTree.subtreeMass c7 := by
  simp [BHTree.subtreeMass, BHTree.subtreeBodies, List.sum_append]
  ring

/-- The weighted position sum of a node's subtree splits likewise. -/
theorem subtreeWeighted_node (com : Vec3) (tm : ℝ) (c0 c1 c2 c3 c4 c5 c6 c7 : BHTree)
    (bd : Bounds) (e : Bool) :
    BHTree.subtreeWeighted (.node com tm none c0 c1 c2 c3 c4 c5 c6 c7 bd e) =
      BHTree.subtreeWeighted c0 + BHTree.subtreeWeighted c1 + BHTree.subtreeWeighted c2 +
      BHTree.subtreeWeighted c3 + BHTree.subtreeWeighted c4 + BHTree.subtreeWeighted c5 +
      BHTree.subtreeWeighted c6 + BHTree.subtreeWeighted c7 := by
  simp [BHTree.subtreeWeighted, BHTree.subtreeBodies, List.sum_append]
  abel

/-- Trees with the same stored bodies have the same subtree mass. -/
theorem subtreeMass_congr {t1 t2 : BHTree}
    (h : BHTree.subtreeBodies t1 = BHTree.subtreeBodies t2) :
    BHTree.subtreeMass t1 = BHTree.subtreeMass t2 := by
  unfold BHTree.subtreeMass
  rw [h]

/-- Trees with the same stored bodies have the same weighted position sum. -/
theorem subtreeWeighted_congr {t1 t2 : BHTree}
    (h : BHTree.subtreeBodies t1 = BHTree.subtreeBodies t2) :
    BHTree.subtreeWeighted t1 = BHTree.subtreeWeighted t2 := by
  unfold BHTree.subtreeWeighted
  rw [h]

/-- Soundness of the aggregate pass: on a well-formed tree whose bodies
all have positive mass, `updateCenterOfMass` establishes the aggregate
invariant, and each node's resulting contribution to its parent equals
its subtree's total mass and mass-weighted position sum. -/
theorem updateCOM_agg : ∀ t : BHTree, BHTree.wf t →
    (∀ x ∈ BHTree.subtreeBodies t, 0 < x.mass) →
    BHTree.aggInv (BHTree.updateCOM t) ∧
    BHTree.contribMass (BHTree.updateCOM t) = BHTree.subtreeMass t ∧
    BHTree.contribWeighted (BHTree.updateCOM t) = BHTree.subtreeWeighted t := by
  intro t
  induction t with
  | null =>
    intro _ _
    refine ⟨trivial, ?_, ?_⟩
    · simp [BHTree.contribMass, BHTree.updateCOM, BHTree.subtreeMass, BHTree.subtreeBodies]
    · show Vec3.zero = BHTree.subtreeWeighted .null
      simp [BHTree.subtreeWeighted, BHTree.subtreeBodies]
      rfl
  | node com tm b c0 c1 c2 c3 c4 c5 c6 c7 bd e ih0 ih1 ih2 ih3 ih4 ih5 ih6 ih7 =>
    intro hw hm
    obtain ⟨hord, hcl1, hcl2, hcl3, hcl4, hcl5, hw0, hw1, hw2, hw3, hw4, hw5, hw6, hw7⟩ := hw
    cases e with
    | true =>
      obtain ⟨hb, h0, h1, h2, h3, h4, h5, h6, h7⟩ := hcl1 rfl
      subst hb h0 h1 h2 h3 h4 h5 h6 h7
      have hueq : BHTree.updateCOM (.node com tm none .null .null .null .null .null .null
          .null .null bd true) = .node com tm none .null .null .null .null .null .null
          .null .null bd true := by
        simp [BHTree.updateCOM]
      rw [hueq]
      refine ⟨⟨?_, ?_, trivial, trivial, trivial, trivial, trivial, trivial, trivial,
        trivial⟩, ?_, ?_⟩
      · intro hcon; cases hcon
      · intro hcon; cases hcon
      · simp [BHTree.contribMass, BHTree.subtreeMass, BHTree.subtreeBodies]
      · show Vec3.zero = _
        simp [BHTree.subtreeWeighted, BHTree.subtreeBodies]
        rfl
    | false =>
      cases b with
      | some x =>
        obtain ⟨hxc, h0, h1, h2, h3, h4, h5, h6, h7⟩ := hcl2 x rfl
        subst h0 h1 h2 h3 h4 h5 h6 h7
        have hueq : BHTree.updateCOM (.node com tm (some x) .null .null .null .null .null
            .null .null .null bd false) = .node x.position x.mass (some x) .null .null
            .null .null .null .null .null .null bd false := by
          simp [BHTree.updateCOM]
        rw [hueq]
        refine ⟨⟨?_, ?_, trivial, trivial, trivial, trivial, trivial, trivial, trivial,
          trivial⟩, ?_, ?_⟩
        · intro _ y hy
          injection hy with hy
          subst hy
          exact ⟨rfl, rfl⟩
        · intro _ hcon; cases hcon
        · simp [BHTree.contribMass, BHTree.subtreeMass, BHTree.subtreeBodies]
        · simp [BHTree.contribWeighted, BHTree.subtreeWeighted, BHTree.subtreeBodies]
      | none =>
        have hmc : ∀ cc : BHTree, (cc = c0 ∨ cc = c1 ∨ cc = c2 ∨ cc = c3 ∨ cc = c4 ∨
            cc = c5 ∨ cc = c6 ∨ cc = c7) → ∀ x ∈ BHTree.subtreeBodies cc, 0 < x.mass := by
          intro cc hcc x hx
          refine hm x ?_
          simp only [BHTree.subtreeBodies, Option.toList_none, List.nil_append,
            List.mem_append]
          rcases hcc with h | h | h | h | h | h | h | h <;> subst h <;> simp [hx]
        have h0 := ih0 hw0 (hmc c0 (Or.inl rfl))
        have h1 := ih1 hw1 (hmc c1 (Or.inr (Or.inl rfl)))
        have h2 := ih2 hw2 (hmc c2 (Or.inr (Or.inr (Or.inl rfl))))
        have h3 := ih3 hw3 (hmc c3 (Or.inr (Or.inr (Or.inr (Or.inl rfl)))))
        have h4 := ih4 hw4 (hmc c4 (Or.inr (Or.inr (Or.inr (Or.inr (Or.inl rfl))))))
        have h5 := ih5 hw5 (hmc c5 (Or.inr (Or.inr (Or.inr (Or.inr (Or.inr
          (Or.inl rfl)))))))
        have h6 := ih6 hw6 (hmc c6 (Or.inr (Or.inr (Or.inr (Or.inr (Or.inr (Or.inr
          (Or.inl rfl))))))))
        have h7 := ih7 hw7 (hmc c7 (Or.inr (Or.inr (Or.inr (Or.inr (Or.inr (Or.inr
          (Or.inr rfl))))))))
        have hcm : BHTree.contribMass (BHTree.updateCOM c0) +
            BHTree.contribMass (BHTree.updateCOM c1) +
            BHTree.contribMass (BHTree.updateCOM c2) +
            BHTree.contribMass (BHTree.updateCOM c3) +
            BHTree.contribMass (BHTree.updateCOM c4) +
            BHTree.contribMass (BHTree.updateCOM c5) +
            BHTree.contribMass (BHTree.updateCOM c6) +
            BHTree.contribMass (BHTree.updateCOM c7) =
            BHTree.subtreeMass (.node com tm none c0 c1 c2 c3 c4 c5 c6 c7 bd false) := by
          rw [h0.2.1, h1.2.1, h2.2.1, h3.2.1, h4.2.1, h5.2.1, h6.2.1, h7.2.1,
            subtreeMass_node]
        have hcw : BHTree.contribWeighted (BHTree.updateCOM c0) +
            BHTree.contribWeighted (BHTree.updateCOM c1) +
            BHTree.contribWeighted (BHTree.updateCOM c2) +
            BHTree.contribWeighted (BHTree.updateCOM c3) +
            BHTree.contribWeighted (BHTree.updateCOM c4) +
            BHTree.contribWeighted (BHTree.updateCOM c5) +
            BHTree.contribWeighted (BHTree.updateCOM c6) +
            BHTree.contribWeighted (BHTree.updateCOM c7) =
            BHTree.subtreeWeighted (.node com tm none c0 c1 c2 c3 c4 c5 c6 c7 bd false) := by
          rw [h0.2.2, h1.2.2, h2.2.2, h3.2.2, h4.2.2, h5.2.2, h6.2.2, h7.2.2,
            subtreeWeighted_node]
        have hne : BHTree.subtreeBodies (.node com tm none c0 c1 c2 c3 c4 c5 c6 c7 bd
            false) ≠ [] := by
          have hlen := hcl3 rfl
          intro hcon
          rw [show BHTree.subtreeBodies (.node Vec3.zero 0 none c0 c1 c2 c3 c4 c5 c6 c7 bd
            false) = BHTree.subtreeBodies (.node com tm none c0 c1 c2 c3 c4 c5 c6 c7 bd
            false) from rfl, hcon] at hlen
          simp at hlen
        have hpos : 0 < BHTree.subtreeMass (.node com tm none c0 c1 c2 c3 c4 c5 c6 c7 bd
            false) := by
          refine List.sum_pos _ ?_ ?_
          · intro a ha
            obtain ⟨y, hy, rfl⟩ := List.mem_map.mp ha
            exact hm y hy
          · simp only [ne_eq, List.map_eq_nil]
            exact hne
        have hposc : 0 < BHTree.contribMass (BHTree.updateCOM c0) +
            BHTree.contribMass (BHTree.updateCOM c1) +
            BHTree.contribMass (BHTree.updateCOM c2) +
            BHTree.contribMass (BHTree.updateCOM c3) +
            BHTree.contribMass (BHTree.updateCOM c4) +
            BHTree.contribMass (BHTree.updateCOM c5) +
            BHTree.contribMass (BHTree.updateCOM c6) +
            BHTree.contribMass (BHTree.updateCOM c7) := by
          rw [hcm]; exact hpos
        have hueq : BHTree.updateCOM (.node com tm none c0 c1 c2 c3 c4 c5 c6 c7 bd false) =
            .node ((BHTree.subtreeWeighted (.node com tm none c0 c1 c2 c3 c4 c5 c6 c7 bd
                false)).smul
              (1 / BHTree.subtreeMass (.node com tm none c0 c1 c2 c3 c4 c5 c6 c7 bd false)))
              (BHTree.subtreeMass (.node com tm none c0 c1 c2 c3 c4 c5 c6 c7 bd false))
              none (BHTree.updateCOM c0) (BHTree.updateCOM c1) (BHTree.updateCOM c2)
              (BHTree.updateCOM c3) (BHTree.updateCOM c4) (BHTree.updateCOM c5)
              (BHTree.updateCOM c6) (BHTree.updateCOM c7) bd false := by
          simp only [BHTree.updateCOM]
          rw [if_neg (by simp), if_pos hposc, hcm, hcw]
        have hsubr : BHTree.subtreeBodies (.node ((BHTree.subtreeWeighted (.node com tm
              none c0 c1 c2 c3 c4 c5 c6 c7 bd false)).smul
              (1 / BHTree.subtreeMass (.node com tm none c0 c1 c2 c3 c4 c5 c6 c7 bd false)))
              (BHTree.subtreeMass (.node com tm none c0 c1 c2 c3 c4 c5 c6 c7 bd false))
              none (BHTree.updateCOM c0) (BHTree.updateCOM c1) (BHTree.updateCOM c2)
              (BHTree.updateCOM c3) (BHTree.updateCOM c4) (BHTree.updateCOM c5)
              (BHTree.updateCOM c6) (BHTree.updateCOM c7) bd false) =
            BHTree.subtreeBodies (.node com tm none c0 c1 c2 c3 c4 c5 c6 c7 bd false) := by
          simp only [BHTree.subtreeBodies, (updateCOM_fields c0).1, (updateCOM_fields c1).1,
            (updateCOM_fields c2).1, (updateCOM_fields c3).1, (updateCOM_fields c4).1,
            (updateCOM_fields c5).1, (updateCOM_fields c6).1, (updateCOM_fields c7).1]
        rw [hueq]
        refine ⟨⟨?_, ?_, h0.1, h1.1, h2.1, h3.1, h4.1, h5.1, h6.1, h7.1⟩, ?_, ?_⟩
        · intro _ y hy
          exact Option.noConfusion hy
        · intro _ _
          refine ⟨(subtreeMass_congr hsubr).symm, ?_⟩
          rw [subtreeMass_congr hsubr, subtreeWeighted_congr hsubr]
        · show BHTree.subtreeMass _ = BHTree.subtreeMass _
          rfl
        · show Vec3.smul _ _ = _
          rw [vec3_smul_smul, one_div, inv_mul_cancel₀ (ne_of_gt hpos), vec3_smul_one]

/-- The padded bounding box of a body list is componentwise ordered. -/
theorem boxOrdered_calculateBounds (bodies : List Body) (padding : ℝ) (hpad : 0 ≤ padding) :
    BHTree.boxOrdered (BHTree.calculateBounds bodies padding) := by
  cases bodies with
  | nil =>
    refine ⟨?_, ?_, ?_⟩ <;> · simp [BHTree.calculateBounds]
  | cons b rest =>
    simp only [BHTree.calculateBounds]
    refine ⟨?_, ?_, ?_⟩
    · have h1 := foldl_min_le_init (fun c => c.position.x) rest b.position.x
      have h2 := init_le_foldl_max (fun c => c.position.x) rest b.position.x
      simp only [BHTree.boxOrdered]
      linarith
    · have h1 := foldl_min_le_init (fun c => c.position.y) rest b.position.y
      have h2 := init_le_foldl_max (fun c => c.position.y) rest b.position.y
      simp only [BHTree.boxOrdered]
      linarith
    · have h1 := foldl_min_le_init (fun c => c.position.z) rest b.position.z
      have h2 := init_le_foldl_max (fun c => c.position.z) rest b.position.z
      simp only [BHTree.boxOrdered]
      linarith

/-- Structural well-formedness subsumes the bounds invariant. -/
theorem wf_to_boundsInv : ∀ t : BHTree, BHTree.wf t → BHTree.boundsInv t := by
  intro t
  induction t with
  | null => intro _; trivial
  | node com tm b c0 c1 c2 c3 c4 c5 c6 c7 bd e ih0 ih1 ih2 ih3 ih4 ih5 ih6 ih7 =>
    intro hw
    obtain ⟨_, _, hcl2, _, _, _, hw0, hw1, hw2, hw3, hw4, hw5, hw6, hw7⟩ := hw
    exact ⟨fun x hx => (hcl2 x hx).1, ih0 hw0, ih1 hw1, ih2 hw2, ih3 hw3, ih4 hw4,
      ih5 hw5, ih6 hw6, ih7 hw7⟩

/-- Folding `insert` over a body list preserves well-formedness and bounds
and prepends exactly the inserted bodies (as a multiset) to the stored
ones, provided every inserted body lies inside the root bounds. -/
theorem insert_fold_sound (fuel : ℕ) (bd : Bounds) :
    ∀ (bodies : List Body) (t t' : BHTree),
      List.foldlM (fun t b => BHTree.insertF fuel b t) t bodies = some t' →
      BHTree.wf t → BHTree.bhBounds t = bd →
      (∀ c ∈ bodies, Bounds.contains bd c.position) →
      BHTree.wf t' ∧ BHTree.bhBounds t' = bd ∧
      (BHTree.subtreeBodies t').Perm (bodies ++ BHTree.subtreeBodies t) := by
  intro bodies
  induction bodies with
  | nil =>
    intro t t' hfold hw hbd _
    simp only [List.foldlM_nil] at hfold
    injection hfold with hfold
    subst hfold
    exact ⟨hw, hbd, by simp⟩
  | cons b bs ih =>
    intro t t' hfold hw hbd hcont
    simp only [List.foldlM_cons] at hfold
    cases hins : BHTree.insertF fuel b t with
    | none => rw [hins] at hfold; cases hfold
    | some t1 =>
      rw [hins] at hfold
      simp only [Option.bind_eq_bind, Option.some_bind] at hfold
      have hs := insertF_sound fuel b t t1 hins hw
      have hcontb : Bounds.contains (BHTree.bhBounds t) b.position := by
        rw [hbd]; exact hcont b (List.mem_cons_self b bs)
      rw [if_pos hcontb] at hs
      obtain ⟨hw1, hbd1, _, hperm1⟩ := hs
      have hrec := ih t1 t' hfold hw1 (by rw [hbd1, hbd])
        (fun c hc => hcont c (List.mem_cons_of_mem b hc))
      refine ⟨hrec.1, hrec.2.1, ?_⟩
      refine hrec.2.2.trans ?_
      refine ((hperm1.append_left bs).trans ?_)
      exact List.perm_middle

/-- Soundness of `buildTree`: a successful build over positive-mass bodies
all lying inside an ordered root box yields a tree satisfying structural
well-formedness, the bounds invariant and the aggregate invariant, and
storing exactly the input bodies. -/
theorem buildTree_sound (fuel : ℕ) (bodies : List Body) (bd : Bounds) (t : BHTree)
    (hbuild : BHTree.buildTree fuel bodies bd = some t)
    (hord : BHTree.boxOrdered bd)
    (hcont : ∀ c ∈ bodies, Bounds.contains bd c.position)
    (hmass : ∀ c ∈ bodies, 0 < c.mass) :
    BHTree.wf t ∧ BHTree.boundsInv t ∧ BHTree.aggInv t ∧
      (BHTree.subtreeBodies t).Perm bodies := by
  unfold BHTree.buildTree at hbuild
  cases hfold : List.foldlM (fun t b => BHTree.insertF fuel b t) (BHTree.mkEmpty bd)
      bodies with
  | none => rw [hfold] at hbuild; cases hbuild
  | some t0 =>
    rw [hfold] at hbuild
    injection hbuild with hbuild
    subst hbuild
    have hs := insert_fold_sound fuel bd bodies (BHTree.mkEmpty bd) t0 hfold
      (wf_mkEmpty bd hord) rfl hcont
    obtain ⟨hw0, _, hperm0⟩ := hs
    have hperm : (BHTree.subtreeBodies t0).Perm bodies := by
      simpa [BHTree.mkEmpty, BHTree.subtreeBodies] using hperm0
    have hmass0 : ∀ x ∈ BHTree.subtreeBodies t0, 0 < x.mass := by
      intro x hx
      exact hmass x (hperm.mem_iff.mp hx)
    have hwu := wf_updateCOM t0 hw0
    refine ⟨hwu, wf_to_boundsInv _ hwu, (updateCOM_agg t0 hw0 hmass0).1, ?_⟩
    rw [(updateCOM_fields t0).1]
    exact hperm

/-- C4: a successfully built octree satisfies the spec's invariants —
every stored body lies within the bounds of its node (and of every
ancestor, those bounds being nested by construction), each aggregated
node's total mass is the sum of its descendants' masses, and its center
of mass is their mass-weighted average position; the tree stores exactly
the input bodies. Mass positivity is the spec's §3 precondition. -/
theorem octree_invariants (fuel : ℕ) (bodies : List Body) (t : BHTree)
    (hbuild : BHTree.buildTree fuel bodies (BHTree.calculateBounds bodies 10) = some t)
    (hmass : ∀ c ∈ bodies, 0 < c.mass) :
    BHTree.boundsInv t ∧ BHTree.aggInv t ∧ (BHTree.subtreeBodies t).Perm bodies := by
  have h := buildTree_sound fuel bodies (BHTree.calculateBounds bodies 10) t hbuild
    (boxOrdered_calculateBounds bodies 10 (by norm_num))
    (calculateBounds_contains bodies 10 (by norm_num))
    hmass
  exact ⟨h.2.1, h.2.2.1, h.2.2.2⟩

/-- Concrete witness: building the octree over a single unit-mass body at
the origin succeeds with fuel 1 and yields a leaf satisfying all three
invariants. -/
theorem octree_invariants_witness :
    (∀ c ∈ [(⟨0, 1, Vec3.zero, Vec3.zero, false⟩ : Body)], 0 < c.mass) ∧
    BHTree.buildTree 1 [(⟨0, 1, Vec3.zero, Vec3.zero, false⟩ : Body)]
        (BHTree.calculateBounds [(⟨0, 1, Vec3.zero, Vec3.zero, false⟩ : Body)] 10) =
      some (.node Vec3.zero 1 (some ⟨0, 1, Vec3.zero, Vec3.zero, false⟩) .null .null .null
        .null .null .null .null .null
        (BHTree.calculateBounds [(⟨0, 1, Vec3.zero, Vec3.zero, false⟩ : Body)] 10) false) ∧
    (BHTree.boundsInv (.node Vec3.zero 1 (some ⟨0, 1, Vec3.zero, Vec3.zero, false⟩) .null
        .null .null .null .null .null .null .null
        (BHTree.calculateBounds [(⟨0, 1, Vec3.zero, Vec3.zero, false⟩ : Body)] 10) false) ∧
      BHTree.aggInv (.node Vec3.zero 1 (some ⟨0, 1, Vec3.zero, Vec3.zero, false⟩) .null
        .null .null .null .null .null .null .null
        (BHTree.calculateBounds [(⟨0, 1, Vec3.zero, Vec3.zero, false⟩ : Body)] 10) false) ∧
      (BHTree.subtreeBodies (.node Vec3.zero 1 (some ⟨0, 1, Vec3.zero, Vec3.zero, false⟩)
        .null .null .null .null .null .null .null .null
        (BHTree.calculateBounds [(⟨0, 1, Vec3.zero, Vec3.zero, false⟩ : Body)] 10)
        false)).Perm [⟨0, 1, Vec3.zero, Vec3.zero, false⟩]) := by
  have hmassw : ∀ c ∈ [(⟨0, 1, Vec3.zero, Vec3.zero, false⟩ : Body)], 0 < c.mass := by
    intro c hc
    simp only [List.mem_singleton] at hc
    subst hc
    norm_num
  have hcont0 : Bounds.contains
      (BHTree.calculateBounds [(⟨0, 1, Vec3.zero, Vec3.zero, false⟩ : Body)] 10)
      (Vec3.zero) := by
    simp only [BHTree.calculateBounds, List.foldl_nil, Bounds.contains, Vec3.zero]
    norm_num
  have h1 : BHTree.insertF 1 (⟨0, 1, Vec3.zero, Vec3.zero, false⟩ : Body)
      (BHTree.mkEmpty
        (BHTree.calculateBounds [(⟨0, 1, Vec3.zero, Vec3.zero, false⟩ : Body)] 10)) =
      some (.node Vec3.zero 1 (some ⟨0, 1, Vec3.zero, Vec3.zero, false⟩) .null .null .null
        .null .null .null .null .null
        (BHTree.calculateBounds [(⟨0, 1, Vec3.zero, Vec3.zero, false⟩ : Body)] 10)
        false) := by
    rw [show BHTree.mkEmpty
        (BHTree.calculateBounds [(⟨0, 1, Vec3.zero, Vec3.zero, false⟩ : Body)] 10) =
        .node Vec3.zero 0 none .null .null .null .null .null .null .null .null
          (BHTree.calculateBounds [(⟨0, 1, Vec3.zero, Vec3.zero, false⟩ : Body)] 10)
          true from rfl]
    exact insertF_empty hcont0
  have hb : BHTree.buildTree 1 [(⟨0, 1, Vec3.zero, Vec3.zero, false⟩ : Body)]
      (BHTree.calculateBounds [(⟨0, 1, Vec3.zero, Vec3.zero, false⟩ : Body)] 10) =
      some (.node Vec3.zero 1 (some ⟨0, 1, Vec3.zero, Vec3.zero, false⟩) .null .null .null
        .null .null .null .null .null
        (BHTree.calculateBounds [(⟨0, 1, Vec3.zero, Vec3.zero, false⟩ : Body)] 10)
        false) := by
    unfold BHTree.buildTree
    rw [List.foldlM_cons, h1]
    simp only [Option.bind_eq_bind, Option.some_bind, List.foldlM_nil]
    rfl
  exact ⟨hmassw, hb, octree_invariants 1 _ _ hb hmassw⟩

/-- An ordered box has nonnegative size. -/
theorem getSize_nonneg (bd : Bounds) (h : BHTree.boxOrdered bd) : 0 ≤ Bounds.getSize bd := by
  obtain ⟨h1, h2, h3⟩ := h
  unfold Bounds.getSize
  have hz : (0:ℝ) ≤ bd.max.z - bd.min.z := by linarith
  exact le_trans hz (le_max_right _ _)

/-- A vector is at least `c` long when its squared length is at least
`c ^ 2` (for positive `c`). -/
theorem le_vec3_length {v : Vec3} {c : ℝ} (hc : 0 < c) (h : c ^ 2 ≤ v.lengthSq) :
    c ≤ v.length := (Real.le_sqrt' hc).mpr h

/-- A vector is shorter than `c` when its squared length is below `c ^ 2`
(for positive `c`). -/
theorem vec3_length_lt {v : Vec3} {c : ℝ} (hc : 0 < c) (h : v.lengthSq < c ^ 2) :
    v.length < c := (Real.sqrt_lt' hc).mpr h

/-- With `theta = 0` the opening test `s / d < theta` never fires on a
well-formed tree (sizes are nonnegative, distances positive past the
coincidence guard), so the traversal recurses to the leaves and returns
the accumulator plus the sum of the leaf point-mass contributions —
provided every visited center of mass stays at distance at least `0.001`
from the query body. -/
theorem calcForceRec_theta0 (G : ℝ) (b : Body) :
    ∀ t : BHTree, BHTree.wf t → BHTree.farFrom b t →
      ∀ F : Vec3, BHTree.calcForceRec G 0 b t F = F + BHTree.bhLeafSum G b t := by
  intro t
  induction t with
  | null =>
    intro _ _ F
    show F = F + (0:Vec3)
    rw [add_zero]
  | node com tm bo c0 c1 c2 c3 c4 c5 c6 c7 bd e ih0 ih1 ih2 ih3 ih4 ih5 ih6 ih7 =>
    intro hw hf F
    obtain ⟨hord, hcl1, hcl2, hcl3, hcl4, hcl5, hw0, hw1, hw2, hw3, hw4, hw5, hw6, hw7⟩ := hw
    obtain ⟨hfar0, hf0, hf1, hf2, hf3, hf4, hf5, hf6, hf7⟩ := hf
    simp only [BHTree.calcForceRec]
    cases e with
    | true =>
      rw [if_pos rfl]
      have : BHTree.bhLeafSum G b (.node com tm bo c0 c1 c2 c3 c4 c5 c6 c7 bd true) = 0 := by
        simp [BHTree.bhLeafSum]
      rw [this, add_zero]
    | false =>
      rw [if_neg (by simp)]
      by_cases hsb : BHTree.sameBody bo b
      · rw [if_pos hsb]
        cases bo with
        | none => exact absurd hsb (by simp [BHTree.sameBody])
        | some x =>
          have hxid : x.id = b.id := hsb
          have : BHTree.bhLeafSum G b
              (.node com tm (some x) c0 c1 c2 c3 c4 c5 c6 c7 bd false) = 0 := by
            simp [BHTree.bhLeafSum, hxid]
          rw [this, add_zero]
      · rw [if_neg hsb]
        have hdist : 0.001 ≤ (Vec3.sub com b.position).length := hfar0 rfl hsb
        rw [if_neg (not_lt.mpr hdist)]
        have hdpos : 0 < (Vec3.sub com b.position).length :=
          lt_of_lt_of_le (by norm_num) hdist
        have hrat : ¬ (Bounds.getSize bd / (Vec3.sub com b.position).length < 0) :=
          not_lt.mpr (div_nonneg (getSize_nonneg bd hord) (le_of_lt hdpos))
        cases bo with
        | some x =>
          have hcond : Bounds.getSize bd / (Vec3.sub com b.position).length < 0 ∨
              (Option.isSome (some x)) = true := Or.inr rfl
          rw [if_pos hcond]
          have hxid : ¬ x.id = b.id := fun hcon => hsb hcon
          have : BHTree.bhLeafSum G b
              (.node com tm (some x) c0 c1 c2 c3 c4 c5 c6 c7 bd false) =
              BHTree.pointForce G b com tm := by
            simp [BHTree.bhLeafSum, hxid]
          rw [this]
          rfl
        | none =>
          rw [if_neg (by simpa using hrat)]
          rw [ih0 hw0 hf0, ih1 hw1 hf1, ih2 hw2 hf2, ih3 hw3 hf3, ih4 hw4 hf4,
            ih5 hw5 hf5, ih6 hw6 hf6, ih7 hw7 hf7]
          have : BHTree.bhLeafSum G b
              (.node com tm none c0 c1 c2 c3 c4 c5 c6 c7 bd false) =
              BHTree.bhLeafSum G b c0 + BHTree.bhLeafSum G b c1 + BHTree.bhLeafSum G b c2 +
              BHTree.bhLeafSum G b c3 + BHTree.bhLeafSum G b c4 + BHTree.bhLeafSum G b c5 +
              BHTree.bhLeafSum G b c6 + BHTree.bhLeafSum G b c7 := by
            simp [BHTree.bhLeafSum]
          rw [this]
          abel

/-- On a well-formed tree with correct aggregates, the leaf point-mass sum
is exactly the direct point-mass sum over the stored bodies. -/
theorem bhLeafSum_eq (G : ℝ) (b : Body) :
    ∀ t : BHTree, BHTree.wf t → BHTree.aggInv t →
      BHTree.bhLeafSum G b t = BHTree.listPointForceSum G b (BHTree.subtreeBodies t) := by
  intro t
  induction t with
  | null =>
    intro _ _
    simp [BHTree.bhLeafSum, BHTree.listPointForceSum, BHTree.subtreeBodies]
  | node com tm bo c0 c1 c2 c3 c4 c5 c6 c7 bd e ih0 ih1 ih2 ih3 ih4 ih5 ih6 ih7 =>
    intro hw ha
    obtain ⟨hord, hcl1, hcl2, hcl3, hcl4, hcl5, hw0, hw1, hw2, hw3, hw4, hw5, hw6, hw7⟩ := hw
    obtain ⟨ha1, ha2, ha0, ha1c, ha2c, ha3c, ha4c, ha5c, ha6c, ha7c⟩ := ha
    cases e with
    | true =>
      obtain ⟨hb, h0, h1, h2, h3, h4, h5, h6, h7⟩ := hcl1 rfl
      subst hb h0 h1 h2 h3 h4 h5 h6 h7
      simp [BHTree.bhLeafSum, BHTree.listPointForceSum, BHTree.subtreeBodies]
    | false =>
      cases bo with
      | some x =>
        obtain ⟨hxc, h0, h1, h2, h3, h4, h5, h6, h7⟩ := hcl2 x rfl
        subst h0 h1 h2 h3 h4 h5 h6 h7
        obtain ⟨htm, hcom⟩ := ha1 rfl x rfl
        by_cases hid : x.id = b.id
        · simp [BHTree.bhLeafSum, BHTree.listPointForceSum, BHTree.subtreeBodies, hid]
        · simp [BHTree.bhLeafSum, BHTree.listPointForceSum, BHTree.subtreeBodies, hid,
            htm, hcom]
      | none =>
        have heq : BHTree.bhLeafSum G b
            (.node com tm none c0 c1 c2 c3 c4 c5 c6 c7 bd false) =
            BHTree.bhLeafSum G b c0 + BHTree.bhLeafSum G b c1 + BHTree.bhLeafSum G b c2 +
            BHTree.bhLeafSum G b c3 + BHTree.bhLeafSum G b c4 + BHTree.bhLeafSum G b c5 +
            BHTree.bhLeafSum G b c6 + BHTree.bhLeafSum G b c7 := by
          simp [BHTree.bhLeafSum]
        rw [heq, ih0 hw0 ha0, ih1 hw1 ha1c, ih2 hw2 ha2c, ih3 hw3 ha3c, ih4 hw4 ha4c,
          ih5 hw5 ha5c, ih6 hw6 ha6c, ih7 hw7 ha7c]
        simp only [BHTree.subtreeBodies, BHTree.listPointForceSum, Option.toList_none,
          List.nil_append, List.filter_append, List.map_append, List.sum_append]

/-- The direct point-mass sum only depends on the multiset of sources. -/
theorem listPointForceSum_perm (G : ℝ) (b : Body) {l1 l2 : List Body} (h : l1.Perm l2) :
    BHTree.listPointForceSum G b l1 = BHTree.listPointForceSum G b l2 := by
  unfold BHTree.listPointForceSum
  exact List.Perm.sum_eq ((h.filter _).map _)

/-- Outside the coincidence branch, the direct evaluator's pair force is
the point-mass force at the other body's position and mass. -/
theorem grav_eq_pointForce (G : ℝ) (rnd : Vec3) (b x : Body)
    (h : ¬ (Vec3.sub x.position b.position).lengthSq < 0.001) :
    PhysicsEngine.calculateGravityForce G rnd b x =
      BHTree.pointForce G b x.position x.mass := by
  simp only [PhysicsEngine.calculateGravityForce, BHTree.pointForce]
  rw [if_neg h, vec3_length_sq_self _ (Vec3.lengthSq_nonneg _)]
  congr 1
  ring

/-- The direct total-force fold equals the point-mass sum when every other
body in the list is at squared distance at least `0.001`. -/
theorem totalForce_fold_eq (G : ℝ) (rnd : ℕ → Vec3) (b : Body) :
    ∀ (l : List Body) (acc : Vec3),
      (∀ x ∈ l, x.id ≠ b.id → ¬ (Vec3.sub x.position b.position).lengthSq < 0.001) →
      List.foldl (fun acc other => if other.id = b.id then acc
        else acc.add (PhysicsEngine.calculateGravityForce G (rnd other.id) b other)) acc l =
      acc + BHTree.listPointForceSum G b l := by
  intro l
  induction l with
  | nil =>
    intro acc _
    simp [BHTree.listPointForceSum]
  | cons x xs ih =>
    intro acc hsep
    simp only [List.foldl_cons]
    by_cases hid : x.id = b.id
    · rw [if_pos hid, ih acc (fun y hy => hsep y (List.mem_cons_of_mem x hy))]
      congr 1
      simp [BHTree.listPointForceSum, hid]
    · rw [if_neg hid,
        ih _ (fun y hy => hsep y (List.mem_cons_of_mem x hy)),
        grav_eq_pointForce G (rnd x.id) b x (hsep x (List.mem_cons_self x xs) hid)]
      have hsum : BHTree.listPointForceSum G b (x :: xs) =
          BHTree.pointForce G b x.position x.mass + BHTree.listPointForceSum G b xs := by
        simp [BHTree.listPointForceSum, hid]
      rw [hsum]
      show acc + _ + _ = _
      rw [add_assoc]

/-- C2 (amended): with `theta = 0` the Barnes-Hut query on a successfully
built tree agrees exactly with the direct evaluator, for a query body
whose distance to every aggregated center of mass is at least `0.001`
(the traversal's early-zero guard) and whose squared distance to every
other body is at least `0.001` (the direct evaluator's jitter guard);
masses are positive per §3. Without the center-of-mass farness hypothesis
the equality fails, see the counterexample. -/
theorem bh_theta0_matches_direct (G : ℝ) (rnd : ℕ → Vec3) (fuel : ℕ)
    (bodies : List Body) (b : Body) (t : BHTree)
    (hbuild : BHTree.buildTree fuel bodies (BHTree.calculateBounds bodies 10) = some t)
    (hmass : ∀ x ∈ bodies, 0 < x.mass)
    (hfar : BHTree.farFrom b t)
    (hsep : ∀ x ∈ bodies, x.id ≠ b.id →
      0.001 ≤ (Vec3.sub x.position b.position).lengthSq) :
    BHTree.calcForce G 0 b t = PhysicsEngine.calculateTotalForce G rnd bodies b := by
  obtain ⟨hwf, _, hagg, hperm⟩ := buildTree_sound fuel bodies _ t hbuild
    (boxOrdered_calculateBounds _ _ (by norm_num))
    (calculateBounds_contains _ _ (by norm_num)) hmass
  unfold BHTree.calcForce
  rw [calcForceRec_theta0 G b t hwf hfar Vec3.zero, bhLeafSum_eq G b t hwf hagg,
    listPointForceSum_perm G b hperm]
  unfold PhysicsEngine.calculateTotalForce
  rw [totalForce_fold_eq G rnd b bodies Vec3.zero
    (fun x hx hid => not_lt.mpr (hsep x hx hid))]

/-- Unfolding step for inserting into a leaf: the existing body is pushed
into its octant's child, then the new body into its own octant's child. -/
theorem insertF_leaf_step {n : ℕ} {body existing : Body} {com : Vec3} {tm : ℝ}
    {c0 c1 c2 c3 c4 c5 c6 c7 : BHTree} {bd : Bounds} {ce cn : BHTree}
    (hcont : Bounds.contains bd body.position)
    (h1 : BHTree.insertF n existing (BHTree.ensuredChild
      (.node com tm (some existing) c0 c1 c2 c3 c4 c5 c6 c7 bd false) bd
      (Bounds.getOctant bd existing.position)) = some ce)
    (h2 : BHTree.insertF n body (BHTree.ensuredChild
      (BHTree.setChild (.node com tm none c0 c1 c2 c3 c4 c5 c6 c7 bd false)
        (Bounds.getOctant bd existing.position) ce) bd
      (Bounds.getOctant bd body.position)) = some cn) :
    BHTree.insertF (n + 1) body
        (.node com tm (some existing) c0 c1 c2 c3 c4 c5 c6 c7 bd false) =
      some (BHTree.setChild
        (BHTree.setChild (.node com tm none c0 c1 c2 c3 c4 c5 c6 c7 bd false)
          (Bounds.getOctant bd existing.position) ce)
        (Bounds.getOctant bd body.position) cn) := by
  simp only [BHTree.insertF]
  rw [if_neg (not_not_intro hcont)]
  rw [if_neg (by simp)]
  simp only [h1, h2]

/-- Concrete build: two bodies of masses `m1` at the origin and `m2` at
`(10,0,0)` (ids 0 and 1) go to octants 6 and 7 of the padded box
`[-10,20]x[-10,10]x[-10,10]`, and the aggregate pass puts the root's
center of mass at `(10*m2/(m1+m2), 0, 0)` with total mass `m1+m2`. -/
theorem two_body_build (m1 m2 : ℝ) (hm : 0 < m1 + m2) :
    BHTree.buildTree 2
        [(⟨0, m1, ⟨0,0,0⟩, Vec3.zero, false⟩ : Body),
         (⟨1, m2, ⟨10,0,0⟩, Vec3.zero, false⟩ : Body)]
        (BHTree.calculateBounds
          [(⟨0, m1, ⟨0,0,0⟩, Vec3.zero, false⟩ : Body),
           (⟨1, m2, ⟨10,0,0⟩, Vec3.zero, false⟩ : Body)] 10) =
      some (.node ⟨10*m2/(m1+m2), 0, 0⟩ (m1+m2) none .null .null .null .null .null .null
        (.node ⟨0,0,0⟩ m1 (some ⟨0, m1, ⟨0,0,0⟩, Vec3.zero, false⟩) .null .null .null
          .null .null .null .null .null ⟨⟨-10,0,0⟩, ⟨5,10,10⟩⟩ false)
        (.node ⟨10,0,0⟩ m2 (some ⟨1, m2, ⟨10,0,0⟩, Vec3.zero, false⟩) .null .null .null
          .null .null .null .null .null ⟨⟨5,0,0⟩, ⟨20,10,10⟩⟩ false)
        ⟨⟨-10,-10,-10⟩, ⟨20,10,10⟩⟩ false) := by
  have hbd : BHTree.calculateBounds
      [(⟨0, m1, ⟨0,0,0⟩, Vec3.zero, false⟩ : Body),
       (⟨1, m2, ⟨10,0,0⟩, Vec3.zero, false⟩ : Body)] 10 =
      ⟨⟨-10,-10,-10⟩, ⟨20,10,10⟩⟩ := by
    norm_num [BHTree.calculateBounds, min_def, max_def]
  have hc1 : Bounds.contains (⟨⟨-10,-10,-10⟩, ⟨20,10,10⟩⟩ : Bounds)
      ((⟨0,0,0⟩ : Vec3)) := by
    norm_num [Bounds.contains]
  have hc2 : Bounds.contains (⟨⟨-10,-10,-10⟩, ⟨20,10,10⟩⟩ : Bounds)
      ((⟨10,0,0⟩ : Vec3)) := by
    norm_num [Bounds.contains]
  have ho1 : Bounds.getOctant (⟨⟨-10,-10,-10⟩, ⟨20,10,10⟩⟩ : Bounds) (⟨0,0,0⟩ : Vec3) =
      6 := by
    norm_num [Bounds.getOctant, Bounds.getCenter]
  have ho2 : Bounds.getOctant (⟨⟨-10,-10,-10⟩, ⟨20,10,10⟩⟩ : Bounds) (⟨10,0,0⟩ : Vec3) =
      7 := by
    norm_num [Bounds.getOctant, Bounds.getCenter]
  have hcb6 : Bounds.childBounds (⟨⟨-10,-10,-10⟩, ⟨20,10,10⟩⟩ : Bounds) 6 =
      ⟨⟨-10,0,0⟩, ⟨5,10,10⟩⟩ := by
    norm_num [Bounds.childBounds, Bounds.getCenter]
  have hcb7 : Bounds.childBounds (⟨⟨-10,-10,-10⟩, ⟨20,10,10⟩⟩ : Bounds) 7 =
      ⟨⟨5,0,0⟩, ⟨20,10,10⟩⟩ := by
    norm_num [Bounds.childBounds, Bounds.getCenter]
  have i1 : BHTree.insertF 2 (⟨0, m1, ⟨0,0,0⟩, Vec3.zero, false⟩ : Body)
      (BHTree.mkEmpty (⟨⟨-10,-10,-10⟩, ⟨20,10,10⟩⟩ : Bounds)) =
      some (.node ⟨0,0,0⟩ m1 (some ⟨0, m1, ⟨0,0,0⟩, Vec3.zero, false⟩) .null .null .null
        .null .null .null .null .null ⟨⟨-10,-10,-10⟩, ⟨20,10,10⟩⟩ false) := by
    exact insertF_empty hc1
  have h1 : BHTree.insertF 1 (⟨0, m1, ⟨0,0,0⟩, Vec3.zero, false⟩ : Body)
      (BHTree.ensuredChild
        (.node ⟨0,0,0⟩ m1 (some ⟨0, m1, ⟨0,0,0⟩, Vec3.zero, false⟩) .null .null .null
          .null .null .null .null .null ⟨⟨-10,-10,-10⟩, ⟨20,10,10⟩⟩ false)
        (⟨⟨-10,-10,-10⟩, ⟨20,10,10⟩⟩ : Bounds)
        (Bounds.getOctant (⟨⟨-10,-10,-10⟩, ⟨20,10,10⟩⟩ : Bounds)
          (Body.position ⟨0, m1, ⟨0,0,0⟩, Vec3.zero, false⟩))) =
      some (.node ⟨0,0,0⟩ m1 (some ⟨0, m1, ⟨0,0,0⟩, Vec3.zero, false⟩) .null .null .null
        .null .null .null .null .null ⟨⟨-10,0,0⟩, ⟨5,10,10⟩⟩ false) := by
    rw [show Body.position (⟨0, m1, ⟨0,0,0⟩, Vec3.zero, false⟩ : Body) = ⟨0,0,0⟩ from rfl,
      ho1]
    rw [show BHTree.ensuredChild
        (.node ⟨0,0,0⟩ m1 (some ⟨0, m1, ⟨0,0,0⟩, Vec3.zero, false⟩) .null .null .null
          .null .null .null .null .null ⟨⟨-10,-10,-10⟩, ⟨20,10,10⟩⟩ false)
        (⟨⟨-10,-10,-10⟩, ⟨20,10,10⟩⟩ : Bounds) 6 =
        BHTree.mkEmpty (Bounds.childBounds (⟨⟨-10,-10,-10⟩, ⟨20,10,10⟩⟩ : Bounds) 6)
        from rfl]
    rw [hcb6]
    exact insertF_empty (by norm_num [Bounds.contains])
  have h2 : BHTree.insertF 1 (⟨1, m2, ⟨10,0,0⟩, Vec3.zero, false⟩ : Body)
      (BHTree.ensuredChild
        (BHTree.setChild
          (.node ⟨0,0,0⟩ m1 none .null .null .null .null .null .null .null .null
            ⟨⟨-10,-10,-10⟩, ⟨20,10,10⟩⟩ false)
          (Bounds.getOctant (⟨⟨-10,-10,-10⟩, ⟨20,10,10⟩⟩ : Bounds)
            (Body.position ⟨0, m1, ⟨0,0,0⟩, Vec3.zero, false⟩))
          (.node ⟨0,0,0⟩ m1 (some ⟨0, m1, ⟨0,0,0⟩, Vec3.zero, false⟩) .null .null .null
            .null .null .null .null .null ⟨⟨-10,0,0⟩, ⟨5,10,10⟩⟩ false))
        (⟨⟨-10,-10,-10⟩, ⟨20,10,10⟩⟩ : Bounds)
        (Bounds.getOctant (⟨⟨-10,-10,-10⟩, ⟨20,10,10⟩⟩ : Bounds)
          (Body.position ⟨1, m2, ⟨10,0,0⟩, Vec3.zero, false⟩))) =
      some (.node ⟨10,0,0⟩ m2 (some ⟨1, m2, ⟨10,0,0⟩, Vec3.zero, false⟩) .null .null .null
        .null .null .null .null .null ⟨⟨5,0,0⟩, ⟨20,10,10⟩⟩ false) := by
    rw [show Body.position (⟨0, m1, ⟨0,0,0⟩, Vec3.zero, false⟩ : Body) = ⟨0,0,0⟩ from rfl,
      show Body.position (⟨1, m2, ⟨10,0,0⟩, Vec3.zero, false⟩ : Body) = ⟨10,0,0⟩ from rfl,
      ho1, ho2]
    rw [show BHTree.ensuredChild
        (BHTree.setChild
          (.node ⟨0,0,0⟩ m1 none .null .null .null .null .null .null .null .null
            ⟨⟨-10,-10,-10⟩, ⟨20,10,10⟩⟩ false) 6
          (.node ⟨0,0,0⟩ m1 (some ⟨0, m1, ⟨0,0,0⟩, Vec3.zero, false⟩) .null .null .null
            .null .null .null .null .null ⟨⟨-10,0,0⟩, ⟨5,10,10⟩⟩ false))
        (⟨⟨-10,-10,-10⟩, ⟨20,10,10⟩⟩ : Bounds) 7 =
        BHTree.mkEmpty (Bounds.childBounds (⟨⟨-10,-10,-10⟩, ⟨20,10,10⟩⟩ : Bounds) 7)
        from rfl]
    rw [hcb7]
    exact insertF_empty (by norm_num [Bounds.contains])
  have i2 : BHTree.insertF 2 (⟨1, m2, ⟨10,0,0⟩, Vec3.zero, false⟩ : Body)
      (.node ⟨0,0,0⟩ m1 (some ⟨0, m1, ⟨0,0,0⟩, Vec3.zero, false⟩) .null .null .null
        .null .null .null .null .null ⟨⟨-10,-10,-10⟩, ⟨20,10,10⟩⟩ false) =
      some (.node ⟨0,0,0⟩ m1 none .null .null .null .null .null .null
        (.node ⟨0,0,0⟩ m1 (some ⟨0, m1, ⟨0,0,0⟩, Vec3.zero, false⟩) .null .null .null
          .null .null .null .null .null ⟨⟨-10,0,0⟩, ⟨5,10,10⟩⟩ false)
        (.node ⟨10,0,0⟩ m2 (some ⟨1, m2, ⟨10,0,0⟩, Vec3.zero, false⟩) .null .null .null
          .null .null .null .null .null ⟨⟨5,0,0⟩, ⟨20,10,10⟩⟩ false)
        ⟨⟨-10,-10,-10⟩, ⟨20,10,10⟩⟩ false) := by
    have hstep := insertF_leaf_step
      (by norm_num [Bounds.contains] : Bounds.contains
        (⟨⟨-10,-10,-10⟩, ⟨20,10,10⟩⟩ : Bounds)
        (Body.position ⟨1, m2, ⟨10,0,0⟩, Vec3.zero, false⟩)) h1 h2
    rw [show Body.position (⟨0, m1, ⟨0,0,0⟩, Vec3.zero, false⟩ : Body) = ⟨0,0,0⟩ from rfl,
      show Body.position (⟨1, m2, ⟨10,0,0⟩, Vec3.zero, false⟩ : Body) = ⟨10,0,0⟩ from rfl,
      ho1, ho2] at hstep
    exact hstep
  have hup : BHTree.updateCOM
      (.node ⟨0,0,0⟩ m1 none .null .null .null .null .null .null
        (.node ⟨0,0,0⟩ m1 (some ⟨0, m1, ⟨0,0,0⟩, Vec3.zero, false⟩) .null .null .null
          .null .null .null .null .null ⟨⟨-10,0,0⟩, ⟨5,10,10⟩⟩ false)
        (.node ⟨10,0,0⟩ m2 (some ⟨1, m2, ⟨10,0,0⟩, Vec3.zero, false⟩) .null .null .null
          .null .null .null .null .null ⟨⟨5,0,0⟩, ⟨20,10,10⟩⟩ false)
        ⟨⟨-10,-10,-10⟩, ⟨20,10,10⟩⟩ false) =
      .node ⟨10*m2/(m1+m2), 0, 0⟩ (m1+m2) none .null .null .null .null .null .null
        (.node ⟨0,0,0⟩ m1 (some ⟨0, m1, ⟨0,0,0⟩, Vec3.zero, false⟩) .null .null .null
          .null .null .null .null .null ⟨⟨-10,0,0⟩, ⟨5,10,10⟩⟩ false)
        (.node ⟨10,0,0⟩ m2 (some ⟨1, m2, ⟨10,0,0⟩, Vec3.zero, false⟩) .null .null .null
          .null .null .null .null .null ⟨⟨5,0,0⟩, ⟨20,10,10⟩⟩ false)
        ⟨⟨-10,-10,-10⟩, ⟨20,10,10⟩⟩ false := by
    simp only [BHTree.updateCOM, BHTree.contribMass, BHTree.contribWeighted]
    norm_num
    rw [if_pos (by linarith : (0:ℝ) < m1 + m2)]
    simp only [BHTree.node.injEq, Vec3.smul, Vec3.zero]
    simp [Vec3.add_def, Vec3.mk.injEq]
    ring
  unfold BHTree.buildTree
  rw [hbd, List.foldlM_cons, i1]
  simp only [Option.bind_eq_bind, Option.some_bind, List.foldlM_cons, List.foldlM_nil]
  rw [i2]
  simp only [Option.some_bind]
  rw [hup]

/-- Normalizing a negative-x axis vector gives `(-1, 0, 0)`. -/
theorem vec3_normalize_neg_x (a : ℝ) (ha : 0 < a) :
    (Vec3.mk (-a) 0 0).normalize = ⟨-1, 0, 0⟩ := by
  have hlsq : (Vec3.mk (-a) 0 0).lengthSq = a ^ 2 := by
    simp [Vec3.lengthSq]; ring
  have hlen : (Vec3.mk (-a) 0 0).length = a := by
    unfold Vec3.length; rw [hlsq]; exact Real.sqrt_sq ha.le
  unfold Vec3.normalize
  rw [if_neg (by rw [hlen]; exact ha.ne.symm), hlen]
  ext <;> simp [Vec3.smul]
  field_simp

/-- Witness for the amended two-evaluator agreement: two unit masses at
the origin and `(10,0,0)`; every hypothesis holds and the theorem applies
with `G = 1` and query body the one at the origin. -/
theorem bh_theta0_matches_direct_witness :
    BHTree.buildTree 2
        [(⟨0, 1, ⟨0,0,0⟩, Vec3.zero, false⟩ : Body),
         (⟨1, 1, ⟨10,0,0⟩, Vec3.zero, false⟩ : Body)]
        (BHTree.calculateBounds
          [(⟨0, 1, ⟨0,0,0⟩, Vec3.zero, false⟩ : Body),
           (⟨1, 1, ⟨10,0,0⟩, Vec3.zero, false⟩ : Body)] 10) =
      some (.node ⟨10*1/(1+1), 0, 0⟩ (1+1) none .null .null .null .null .null .null
        (.node ⟨0,0,0⟩ 1 (some ⟨0, 1, ⟨0,0,0⟩, Vec3.zero, false⟩) .null .null .null
          .null .null .null .null .null ⟨⟨-10,0,0⟩, ⟨5,10,10⟩⟩ false)
        (.node ⟨10,0,0⟩ 1 (some ⟨1, 1, ⟨10,0,0⟩, Vec3.zero, false⟩) .null .null .null
          .null .null .null .null .null ⟨⟨5,0,0⟩, ⟨20,10,10⟩⟩ false)
        ⟨⟨-10,-10,-10⟩, ⟨20,10,10⟩⟩ false) ∧
    BHTree.calcForce 1 0 (⟨0, 1, ⟨0,0,0⟩, Vec3.zero, false⟩ : Body)
        (.node ⟨10*1/(1+1), 0, 0⟩ (1+1) none .null .null .null .null .null .null
          (.node ⟨0,0,0⟩ 1 (some ⟨0, 1, ⟨0,0,0⟩, Vec3.zero, false⟩) .null .null .null
            .null .null .null .null .null ⟨⟨-10,0,0⟩, ⟨5,10,10⟩⟩ false)
          (.node ⟨10,0,0⟩ 1 (some ⟨1, 1, ⟨10,0,0⟩, Vec3.zero, false⟩) .null .null .null
            .null .null .null .null .null ⟨⟨5,0,0⟩, ⟨20,10,10⟩⟩ false)
          ⟨⟨-10,-10,-10⟩, ⟨20,10,10⟩⟩ false) =
      PhysicsEngine.calculateTotalForce 1 (fun _ => Vec3.zero)
        [(⟨0, 1, ⟨0,0,0⟩, Vec3.zero, false⟩ : Body),
         (⟨1, 1, ⟨10,0,0⟩, Vec3.zero, false⟩ : Body)]
        (⟨0, 1, ⟨0,0,0⟩, Vec3.zero, false⟩ : Body) := by
  have hbuild := two_body_build 1 1 (by norm_num)
  have hmassw : ∀ x ∈ [(⟨0, 1, ⟨0,0,0⟩, Vec3.zero, false⟩ : Body),
      (⟨1, 1, ⟨10,0,0⟩, Vec3.zero, false⟩ : Body)], 0 < x.mass := by
    intro x hx
    rcases List.mem_cons.mp hx with h | h
    · subst h; norm_num
    · simp only [List.mem_singleton] at h; subst h; norm_num
  have hfarw : BHTree.farFrom (⟨0, 1, ⟨0,0,0⟩, Vec3.zero, false⟩ : Body)
      (.node ⟨10*1/(1+1), 0, 0⟩ (1+1) none .null .null .null .null .null .null
        (.node ⟨0,0,0⟩ 1 (some ⟨0, 1, ⟨0,0,0⟩, Vec3.zero, false⟩) .null .null .null
          .null .null .null .null .null ⟨⟨-10,0,0⟩, ⟨5,10,10⟩⟩ false)
        (.node ⟨10,0,0⟩ 1 (some ⟨1, 1, ⟨10,0,0⟩, Vec3.zero, false⟩) .null .null .null
          .null .null .null .null .null ⟨⟨5,0,0⟩, ⟨20,10,10⟩⟩ false)
        ⟨⟨-10,-10,-10⟩, ⟨20,10,10⟩⟩ false) := by
    refine ⟨?_, trivial, trivial, trivial, trivial, trivial, trivial,
      ⟨?_, trivial, trivial, trivial, trivial, trivial, trivial, trivial, trivial⟩,
      ⟨?_, trivial, trivial, trivial, trivial, trivial, trivial, trivial, trivial⟩⟩
    · intro _ _
      refine le_vec3_length (by norm_num) ?_
      norm_num [Vec3.sub, Vec3.lengthSq]
    · intro _ hns
      exact absurd rfl hns
    · intro _ _
      refine le_vec3_length (by norm_num) ?_
      norm_num [Vec3.sub, Vec3.lengthSq]
  have hsepw : ∀ x ∈ [(⟨0, 1, ⟨0,0,0⟩, Vec3.zero, false⟩ : Body),
      (⟨1, 1, ⟨10,0,0⟩, Vec3.zero, false⟩ : Body)],
      x.id ≠ (⟨0, 1, ⟨0,0,0⟩, Vec3.zero, false⟩ : Body).id →
      0.001 ≤ (Vec3.sub x.position
        (⟨0, 1, ⟨0,0,0⟩, Vec3.zero, false⟩ : Body).position).lengthSq := by
    intro x hx hid
    rcases List.mem_cons.mp hx with h | h
    · subst h; exact absurd rfl hid
    · simp only [List.mem_singleton] at h
      subst h
      norm_num [Vec3.sub, Vec3.lengthSq]
  exact ⟨hbuild, bh_theta0_matches_direct 1 (fun _ => Vec3.zero) 2 _ _ _ hbuild hmassw
    hfarw hsepw⟩

/-- C2 counterexample: two bodies at distinct positions (origin and
`(10,0,0)`, masses 1 and 10^6, ids 0 and 1) build successfully, yet with
`theta = 0` the Barnes-Hut force on the heavy body is the zero vector —
its distance to the root's center of mass is about `10^-5 < 0.001`, so
the traversal's early-return discards the entire tree — while the direct
evaluator returns `(-10^4, 0, 0)`. The claim's theta-to-zero convergence
therefore fails even for pairwise-distinct positions. -/
theorem bh_theta0_counterexample :
    ∃ b1 b2 : Body, b1.position ≠ b2.position ∧ 0 < b1.mass ∧ 0 < b2.mass ∧
      b1.id ≠ b2.id ∧
      ∃ t, BHTree.buildTree 2 [b1, b2] (BHTree.calculateBounds [b1, b2] 10) = some t ∧
        BHTree.calcForce 1 0 b2 t ≠
          PhysicsEngine.calculateTotalForce 1 (fun _ => Vec3.zero) [b1, b2] b2 := by
  refine ⟨⟨0, 1, ⟨0,0,0⟩, Vec3.zero, false⟩, ⟨1, 1000000, ⟨10,0,0⟩, Vec3.zero, false⟩,
    ?_, by norm_num, by norm_num, by norm_num,
    ⟨_, two_body_build 1 1000000 (by norm_num), ?_⟩⟩
  · intro h
    rw [show Body.position (⟨0, 1, ⟨0,0,0⟩, Vec3.zero, false⟩ : Body) = ⟨0,0,0⟩ from rfl,
      show Body.position (⟨1, 1000000, ⟨10,0,0⟩, Vec3.zero, false⟩ : Body) = ⟨10,0,0⟩
        from rfl] at h
    have hx := congrArg Vec3.x h
    norm_num at hx
  · have hzero : BHTree.calcForce 1 0 (⟨1, 1000000, ⟨10,0,0⟩, Vec3.zero, false⟩ : Body)
        (.node ⟨10*1000000/(1+1000000), 0, 0⟩ (1+1000000) none .null .null .null .null
          .null .null
          (.node ⟨0,0,0⟩ 1 (some ⟨0, 1, ⟨0,0,0⟩, Vec3.zero, false⟩) .null .null .null
            .null .null .null .null .null ⟨⟨-10,0,0⟩, ⟨5,10,10⟩⟩ false)
          (.node ⟨10,0,0⟩ 1000000 (some ⟨1, 1000000, ⟨10,0,0⟩, Vec3.zero, false⟩) .null
            .null .null .null .null .null .null .null ⟨⟨5,0,0⟩, ⟨20,10,10⟩⟩ false)
          ⟨⟨-10,-10,-10⟩, ⟨20,10,10⟩⟩ false) = Vec3.zero := by
      unfold BHTree.calcForce
      simp only [BHTree.calcForceRec]
      rw [if_neg (by simp)]
      rw [if_neg (by simp [BHTree.sameBody])]
      rw [if_pos (vec3_length_lt (by norm_num)
        (by norm_num [Vec3.sub, Vec3.lengthSq]))]
    rw [hzero]
    have hgrav : PhysicsEngine.calculateGravityForce 1 Vec3.zero
        (⟨1, 1000000, ⟨10,0,0⟩, Vec3.zero, false⟩ : Body)
        (⟨0, 1, ⟨0,0,0⟩, Vec3.zero, false⟩ : Body) = ⟨-10000, 0, 0⟩ := by
      simp only [PhysicsEngine.calculateGravityForce]
      rw [if_neg (by norm_num [Vec3.sub, Vec3.lengthSq])]
      rw [show Vec3.sub (Body.position (⟨0, 1, ⟨0,0,0⟩, Vec3.zero, false⟩ : Body))
          (Body.position (⟨1, 1000000, ⟨10,0,0⟩, Vec3.zero, false⟩ : Body)) =
          Vec3.mk (-(10:ℝ)) 0 0 from by norm_num [Vec3.sub, Vec3.mk.injEq]]
      rw [vec3_normalize_neg_x 10 (by norm_num)]
      norm_num [Vec3.smul, Vec3.lengthSq, max_def, Vec3.mk.injEq]
    have hdirect : PhysicsEngine.calculateTotalForce 1 (fun _ => Vec3.zero)
        [(⟨0, 1, ⟨0,0,0⟩, Vec3.zero, false⟩ : Body),
         (⟨1, 1000000, ⟨10,0,0⟩, Vec3.zero, false⟩ : Body)]
        (⟨1, 1000000, ⟨10,0,0⟩, Vec3.zero, false⟩ : Body) = ⟨-10000, 0, 0⟩ := by
      simp only [PhysicsEngine.calculateTotalForce, List.foldl_cons, List.foldl_nil]
      rw [if_neg (show ¬((0:ℕ) = 1) from by norm_num),
        if_pos (trivial : True), hgrav]
      show Vec3.add Vec3.zero _ = _
      norm_num [Vec3.add, Vec3.zero, Vec3.mk.injEq]
    rw [hdirect]
    intro h
    have hx := congrArg Vec3.x h
    rw [show Vec3.x Vec3.zero = 0 from rfl] at hx
    norm_num at hx

end

end Orbitar
